import Mathlib

/-!
# TokenBucket: a lock-free token bucket over one atomic virtual-time counter

Shallow embedding of `src/TokenBucket.h`.

* `uint64_t` values are natural numbers below `2 ^ 64`; every arithmetic
  operation of the source is followed by an explicit reduction modulo `2 ^ 64`.
* The steady clock is an input: `consume` takes the reading `now` (microseconds)
  as an argument.
* `compare_exchange_weak` is modelled by what the calling thread observes: for
  each failed attempt, the value that the failure loaded back into `oldTime`
  (`consumeTrace`); `consume` is the call whose first attempt succeeds.
* Concurrent callers are modelled by `System`: threads take the atomic steps of
  `consume` (`threadStep`) in the order given by a schedule.  `Shared` is the
  same with a clock reading and a token count of its own for every call.
* The copy constructor and the copy assignment are `copyConstruct` and
  `copyAssign`.
-/

/-- The three atomic members `time_`, `timePerToken_` and `timePerBurst_`. -/
structure TokenBucket where
  time_ : Nat
  timePerToken_ : Nat
  timePerBurst_ : Nat
deriving DecidableEq, Repr

namespace TokenBucket

/-- All three members are representable as `uint64_t`. -/
def WellFormed (bk : TokenBucket) : Prop :=
  bk.time_ < 2 ^ 64 ∧ bk.timePerToken_ < 2 ^ 64 ∧ bk.timePerBurst_ < 2 ^ 64

instance (bk : TokenBucket) : Decidable bk.WellFormed :=
  inferInstanceAs (Decidable (_ ∧ _ ∧ _))

/-- The constructor `TokenBucket()`: the three members keep their initialisers. -/
def default : TokenBucket :=
  { time_ := 0, timePerToken_ := 0, timePerBurst_ := 0 }

/-- The constructor `TokenBucket(rate, burstSize)`.  The unsigned division
`1000000 / rate` is undefined for `rate = 0`, which is reported as `none`. -/
def construct (rate burstSize : Nat) : Option TokenBucket :=
  if rate = 0 then none
  else
    let timePerToken := 1000000 / rate
    some { time_ := 0
           timePerToken_ := timePerToken
           timePerBurst_ := (burstSize * timePerToken) % 2 ^ 64 }

/-- The local `timeNeeded` of `consume`: `tokens * timePerToken_` in `uint64_t`. -/
def timeNeeded (bk : TokenBucket) (tokens : Nat) : Nat :=
  (tokens * bk.timePerToken_) % 2 ^ 64

/-- The local `minTime` of `consume`: `now - timePerBurst_` in `uint64_t`. -/
def minTime (bk : TokenBucket) (now : Nat) : Nat :=
  (now + 2 ^ 64 - bk.timePerBurst_) % 2 ^ 64

/-- What one call of `consume` did: the returned boolean, and for a call whose
compare-exchange succeeded the pair (expected value, stored value). -/
structure Outcome where
  ret : Bool
  cas : Option (Nat × Nat)
deriving DecidableEq, Repr

/-- The `for (;;)` loop of `consume`.  The list holds, for every failing
`compare_exchange_weak` of this call, the value of `time_` that the failure
loaded into `oldTime`; once the list is used up the next attempt succeeds. -/
def consumeLoop (now timeNeeded : Nat) : List Nat → Nat → Nat → Outcome
  | [], oldTime, newTime =>
    let newTime := (newTime + timeNeeded) % 2 ^ 64
    if newTime > now then { ret := false, cas := none }
    else { ret := true, cas := some (oldTime, newTime) }
  | seen :: fails, _, newTime =>
    let newTime := (newTime + timeNeeded) % 2 ^ 64
    if newTime > now then { ret := false, cas := none }
    else consumeLoop now timeNeeded fails seen seen

/-- One call `consume(tokens)` at clock reading `now`, its compare-exchange
failing once for each element of `fails`. -/
def consumeTrace (bk : TokenBucket) (now tokens : Nat) (fails : List Nat) : Outcome :=
  let timeNeeded := bk.timeNeeded tokens
  let minTime := bk.minTime now
  let oldTime := bk.time_
  let newTime := if minTime > oldTime then minTime else oldTime
  consumeLoop now timeNeeded fails oldTime newTime

/-- The bucket after a call: `time_` holds the stored value if the call's
compare-exchange succeeded, and nothing is written otherwise. -/
def commit (bk : TokenBucket) (o : Outcome) : TokenBucket :=
  match o.cas with
  | some (_, stored) => { bk with time_ := stored }
  | none => bk

/-- An uncontended `consume(tokens)` at clock reading `now`: the first
compare-exchange succeeds.  Returns the boolean and the bucket afterwards. -/
def consume (bk : TokenBucket) (now tokens : Nat) : Bool × TokenBucket :=
  let o := bk.consumeTrace now tokens []
  (o.ret, bk.commit o)

/-- A sequence of uncontended calls, each a pair (clock reading, tokens), run
one after the other; returns the booleans in call order and the final bucket. -/
def run : TokenBucket → List (Nat × Nat) → List Bool × TokenBucket
  | bk, [] => ([], bk)
  | bk, (now, tokens) :: calls =>
    let r := bk.consume now tokens
    let rest := run r.2 calls
    (r.1 :: rest.1, rest.2)

/-- Total number of tokens requested by the calls of a sequence that returned
`true`. -/
def granted : TokenBucket → List (Nat × Nat) → Nat
  | _, [] => 0
  | bk, (now, tokens) :: calls =>
    let r := bk.consume now tokens
    (if r.1 then tokens else 0) + granted r.2 calls

/-- The addition `newTime += timeNeeded` of the first loop iteration stays below
`2 ^ 64`, so it does not wrap around. -/
def AddFits (bk : TokenBucket) (now tokens : Nat) : Prop :=
  max bk.time_ (bk.minTime now) + bk.timeNeeded tokens < 2 ^ 64

instance (bk : TokenBucket) (now tokens : Nat) : Decidable (bk.AddFits now tokens) :=
  inferInstanceAs (Decidable (_ < _))

/-- In every call of a sequence of uncontended calls the addition
`newTime += timeNeeded` does not wrap around. -/
def RunFits : TokenBucket → List (Nat × Nat) → Prop
  | _, [] => True
  | bk, (now, tokens) :: calls =>
    bk.AddFits now tokens ∧ RunFits (bk.consume now tokens).2 calls

instance decRunFits : (bk : TokenBucket) → (calls : List (Nat × Nat)) →
    Decidable (bk.RunFits calls)
  | _, [] => isTrue trivial
  | bk, (now, tokens) :: calls =>
    @instDecidableAnd _ _ _ (decRunFits (bk.consume now tokens).2 calls)

/-- Clock reading `t_0` of the first call of a sequence (0 for the empty one). -/
def firstReading : List (Nat × Nat) → Nat
  | [] => 0
  | c :: _ => c.1

/-- Clock reading `t_n` of the last call of a sequence (0 for the empty one). -/
def lastReading : List (Nat × Nat) → Nat
  | [] => 0
  | [c] => c.1
  | _ :: c :: calls => lastReading (c :: calls)

/-- The clock readings of a sequence of calls are non-decreasing. -/
def NonDecreasing (calls : List (Nat × Nat)) : Prop :=
  calls.Pairwise (fun c d => c.1 ≤ d.1)

instance (calls : List (Nat × Nat)) : Decidable (NonDecreasing calls) :=
  inferInstanceAs (Decidable (List.Pairwise _ _))

/-- Where a thread stands inside `consume`: before the load of `time_`, at the
head of the `for (;;)` loop with its locals `oldTime` and `newTime`, or returned. -/
inductive Pc where
  | entry
  | attempt (oldTime newTime : Nat)
  | returned (result : Bool)
deriving DecidableEq, Repr

/-- One atomic step of a thread that called `consume(tokens)` and read the clock
as `now`: the load of `time_` with the clamp, or one loop iteration with its
`compare_exchange_weak`.  With `spurious` set the compare-exchange fails although
`time_` equals `oldTime`; on any failure `oldTime` is reloaded and
`newTime = oldTime`. -/
def threadStep (now tokens : Nat) (spurious : Bool) (bk : TokenBucket) :
    Pc → TokenBucket × Pc
  | .entry =>
    let minTime := bk.minTime now
    let oldTime := bk.time_
    (bk, .attempt oldTime (if minTime > oldTime then minTime else oldTime))
  | .attempt oldTime newTime =>
    let newTime := (newTime + bk.timeNeeded tokens) % 2 ^ 64
    if newTime > now then (bk, .returned false)
    else if bk.time_ = oldTime ∧ spurious = false then
      ({ bk with time_ := newTime }, .returned true)
    else (bk, .attempt bk.time_ bk.time_)
  | .returned result => (bk, .returned result)

/-- A bucket shared by threads that all called `consume(tokens)` with the same
clock reading. -/
structure System where
  bucket : TokenBucket
  threads : List Pc
deriving DecidableEq, Repr

/-- Thread `i` takes its next atomic step. -/
def System.step (now tokens : Nat) (s : System) (i : Nat) (spurious : Bool) : System :=
  match s.threads[i]? with
  | none => s
  | some pc =>
    let r := threadStep now tokens spurious s.bucket pc
    { bucket := r.1, threads := s.threads.set i r.2 }

/-- An interleaving: the threads step in the order the schedule lists them, each
entry naming the thread and whether its compare-exchange fails spuriously. -/
def System.exec (now tokens : Nat) : System → List (Nat × Bool) → System
  | s, [] => s
  | s, (i, spurious) :: schedule => System.exec now tokens (s.step now tokens i spurious) schedule

/-- Number of threads whose call returned `true`. -/
def System.admitted (s : System) : Nat :=
  s.threads.count (Pc.returned true)

/-- The thread has returned from its call. -/
def Pc.isReturned : Pc → Bool
  | .returned _ => true
  | _ => false

/-- Every thread has returned from its call. -/
def System.Finished (s : System) : Prop :=
  ∀ pc ∈ s.threads, pc.isReturned = true

instance (s : System) : Decidable s.Finished :=
  inferInstanceAs (Decidable (∀ pc ∈ s.threads, pc.isReturned = true))

/-- What a thread can hold after `j` grants when no compare-exchange fails
spuriously; `m` is the clamped starting point and `c` the cost of one call. -/
def ThreadOk (t0 m c now j : Nat) : Pc → Prop
  | .entry => True
  | .attempt oldTime newTime =>
    (oldTime = t0 ∧ newTime = m) ∨
      (∃ i, 1 ≤ i ∧ i ≤ j ∧ oldTime = m + i * c ∧ newTime = m + i * c)
  | .returned true => True
  | .returned false => now < m + (j + 1) * c

/-- The system after `j` grants when no compare-exchange fails spuriously. -/
def SystemOk (t0 T B now tokens j : Nat) (s : System) : Prop :=
  s.bucket.timePerToken_ = T ∧ s.bucket.timePerBurst_ = B ∧
  ((j = 0 ∧ s.bucket.time_ = t0) ∨
    (1 ≤ j ∧ s.bucket.time_ = max t0 (now - B) + j * (tokens * T))) ∧
  max t0 (now - B) + j * (tokens * T) ≤ now ∧
  (∀ pc ∈ s.threads, ThreadOk t0 (max t0 (now - B)) (tokens * T) now j pc) ∧
  s.threads.count (Pc.returned true) = j

/-- The candidate of the design-level algorithm, over the integers:
`max(old, now - timePerBurst) + tokens * timePerToken`. -/
def refCandidate (bk : TokenBucket) (now tokens : Nat) : Int :=
  max (bk.time_ : Int) ((now : Int) - (bk.timePerBurst_ : Int))
    + (tokens : Int) * (bk.timePerToken_ : Int)

/-- One call of `consume` in progress: the clock reading it took, the tokens it
asks for, and where it stands. -/
structure Caller where
  now : Nat
  tokens : Nat
  pc : Pc
deriving DecidableEq, Repr

/-- A bucket shared by any number of calls, each with its own clock reading and
token count. -/
structure Shared where
  bucket : TokenBucket
  callers : List Caller
deriving DecidableEq, Repr

/-- Call `i` takes its next atomic step (`threadStep`) on the shared bucket. -/
def Shared.step (s : Shared) (i : Nat) (spurious : Bool) : Shared :=
  match s.callers[i]? with
  | none => s
  | some c =>
    let r := threadStep c.now c.tokens spurious s.bucket c.pc
    { bucket := r.1, callers := s.callers.set i { c with pc := r.2 } }

/-- An interleaving of the calls: they step in the order the schedule lists
them, each entry naming the call and whether its compare-exchange fails
spuriously. -/
def Shared.exec : Shared → List (Nat × Bool) → Shared
  | s, [] => s
  | s, (i, spurious) :: schedule => Shared.exec (s.step i spurious) schedule

/-- The addition `newTime += timeNeeded` that the next step of a call performs,
if it performs one, stays below `2 ^ 64`. -/
def Pc.addFits (timeNeeded : Nat) : Pc → Bool
  | .attempt _ newTime => decide (newTime + timeNeeded < 2 ^ 64)
  | _ => true

/-- The next step of call `i` performs no addition that wraps around. -/
def Shared.nextFits (s : Shared) (i : Nat) : Bool :=
  match s.callers[i]? with
  | none => true
  | some c => c.pc.addFits (s.bucket.timeNeeded c.tokens)

/-- No step of the interleaving performs an addition `newTime += timeNeeded`
that wraps around. -/
def Shared.ExecFits : Shared → List (Nat × Bool) → Prop
  | _, [] => True
  | s, (i, spurious) :: schedule =>
    s.nextFits i = true ∧ Shared.ExecFits (s.step i spurious) schedule

instance Shared.decExecFits : (s : Shared) → (schedule : List (Nat × Bool)) →
    Decidable (s.ExecFits schedule)
  | _, [] => isTrue trivial
  | s, (i, spurious) :: schedule =>
    @instDecidableAnd _ _ _ (Shared.decExecFits (s.step i spurious) schedule)

/-- At the head of the loop `newTime` is never below `oldTime`. -/
def Pc.Sane : Pc → Prop
  | .attempt oldTime newTime => oldTime ≤ newTime
  | _ => True

/-- The unbounded-integer reference step of the design-level algorithm: if the
candidate is at most `now`, the call is granted and the candidate becomes the
stored time; otherwise the call is refused and the stored time stays. -/
def refStep (bk : TokenBucket) (now tokens : Nat) : Bool × Int :=
  if bk.refCandidate now tokens ≤ (now : Int) then (true, bk.refCandidate now tokens)
  else (false, (bk.time_ : Int))

/-- The copy constructor `TokenBucket(const TokenBucket &other)`: it assigns
`timePerToken_` and `timePerBurst_`; `time_` keeps its initialiser `{0}`. -/
def copyConstruct (other : TokenBucket) : TokenBucket :=
  { time_ := 0
    timePerToken_ := other.timePerToken_
    timePerBurst_ := other.timePerBurst_ }

/-- The copy assignment `operator=(const TokenBucket &other)` on the bucket
`self`: it assigns `timePerToken_` and `timePerBurst_` and nothing else. -/
def copyAssign (self other : TokenBucket) : TokenBucket :=
  { self with
    timePerToken_ := other.timePerToken_
    timePerBurst_ := other.timePerBurst_ }

/-- A sequence of calls, each given as clock reading, tokens and the values that
its failing compare-exchanges reloaded, run one after the other; returns the
booleans in call order and the final bucket. -/
def runTrace : TokenBucket → List (Nat × Nat × List Nat) → List Bool × TokenBucket
  | bk, [] => ([], bk)
  | bk, (now, tokens, fails) :: calls =>
    let o := bk.consumeTrace now tokens fails
    let rest := runTrace (bk.commit o) calls
    (o.ret :: rest.1, rest.2)

/-- Sum of `tokens * timePerToken_`, over the integers, over the calls of a
sequence of uncontended calls that returned `true`. -/
def grantedTime : TokenBucket → List (Nat × Nat) → Nat
  | _, [] => 0
  | bk, (now, tokens) :: calls =>
    let r := bk.consume now tokens
    (if r.1 then tokens * bk.timePerToken_ else 0) + grantedTime r.2 calls

end TokenBucket


namespace TokenBucket

/-! ## Unfolding lemmas -/

theorem consume_eq (bk : TokenBucket) (now tokens : Nat) :
    bk.consume now tokens =
      if (max bk.time_ (bk.minTime now) + bk.timeNeeded tokens) % 2 ^ 64 > now then (false, bk)
      else (true, { bk with
        time_ := (max bk.time_ (bk.minTime now) + bk.timeNeeded tokens) % 2 ^ 64 }) := by
  have hmax : (if bk.minTime now > bk.time_ then bk.minTime now else bk.time_)
      = max bk.time_ (bk.minTime now) := by
    split <;> omega
  simp only [consume, consumeTrace, consumeLoop, hmax]
  split <;> simp [commit]

theorem consume_timePerToken (bk : TokenBucket) (now tokens : Nat) :
    (bk.consume now tokens).2.timePerToken_ = bk.timePerToken_ := by
  rw [consume_eq]; split <;> rfl

theorem consume_timePerBurst (bk : TokenBucket) (now tokens : Nat) :
    (bk.consume now tokens).2.timePerBurst_ = bk.timePerBurst_ := by
  rw [consume_eq]; split <;> rfl

/-! ## C1 -/

/-- C1 (counterexample): a bucket built with rate 10 and burst 5, stored
virtualTime 0, clock reading 100 and 5 tokens: the uncontended call returns true
although the integer candidate 500000 exceeds the clock reading. -/
theorem consume_integer_candidate_counterexample :
    construct 10 5 = some ⟨0, 100000, 500000⟩ ∧
    (consume ⟨0, 100000, 500000⟩ 100 5).1 = true ∧
    refCandidate ⟨0, 100000, 500000⟩ 100 5 = 500000 ∧
    ¬ (refCandidate ⟨0, 100000, 500000⟩ 100 5 ≤ 100) := by
  decide

/-- C1 (amended): when the clock reading is at least timePerBurst and the
candidate max(old, now - timePerBurst) + tokens * timePerToken is below 2^64,
an uncontended consume returns true exactly when the integer candidate is at
most now, and then the bucket afterwards is the bucket before with virtualTime
replaced by exactly that candidate. -/
theorem consume_iff_candidate (bk : TokenBucket) (now tokens : Nat)
    (hwf : bk.WellFormed) (hnow : now < 2 ^ 64)
    (hburst : bk.timePerBurst_ ≤ now)
    (hfit : bk.refCandidate now tokens < 2 ^ 64) :
    ((bk.consume now tokens).1 = true ↔ bk.refCandidate now tokens ≤ now) ∧
    ((bk.consume now tokens).1 = true →
      (bk.consume now tokens).2 =
        { bk with time_ := (bk.refCandidate now tokens).toNat }) := by
  obtain ⟨ht, hp, hb⟩ := hwf
  have hmin : bk.minTime now = now - bk.timePerBurst_ := by
    unfold minTime; omega
  have hcand : bk.refCandidate now tokens
      = ((max bk.time_ (now - bk.timePerBurst_) + tokens * bk.timePerToken_ : Nat) : Int) := by
    unfold refCandidate; push_cast; omega
  rw [hcand] at hfit ⊢
  have hfit' : max bk.time_ (now - bk.timePerBurst_) + tokens * bk.timePerToken_ < 2 ^ 64 := by
    exact_mod_cast hfit
  have hneed : bk.timeNeeded tokens = tokens * bk.timePerToken_ := by
    unfold timeNeeded; omega
  rw [consume_eq, hmin, hneed, Nat.mod_eq_of_lt hfit']
  by_cases h : max bk.time_ (now - bk.timePerBurst_) + tokens * bk.timePerToken_ > now
  · simp only [h, if_true]
    constructor
    · constructor
      · intro hc; cases hc
      · intro hc; omega
    · intro hc; cases hc
  · simp only [h, if_false]
    constructor
    · constructor
      · intro _; omega
      · intro _; trivial
    · intro _; rw [Int.toNat_ofNat]

/-- C1 (witness): rate 10, burst 5, stored virtualTime 600000, clock reading
1000000, 2 tokens. -/
theorem consume_iff_candidate_witness :
    (TokenBucket.mk 600000 100000 500000).WellFormed ∧ (1000000 : Nat) < 2 ^ 64 ∧
    (500000 : Nat) ≤ 1000000 ∧
    (((consume ⟨600000, 100000, 500000⟩ 1000000 2).1 = true ↔
        refCandidate ⟨600000, 100000, 500000⟩ 1000000 2 ≤ (1000000 : Nat)) ∧
      ((consume ⟨600000, 100000, 500000⟩ 1000000 2).1 = true →
        (consume ⟨600000, 100000, 500000⟩ 1000000 2).2 =
          { (TokenBucket.mk 600000 100000 500000) with
            time_ := (refCandidate ⟨600000, 100000, 500000⟩ 1000000 2).toNat })) :=
  ⟨by decide, by decide, by decide,
    consume_iff_candidate ⟨600000, 100000, 500000⟩ 1000000 2
      (by decide) (by decide) (by decide) (by decide)⟩

/-! ## C2 -/

theorem consumeLoop_nil (now need oldTime newTime : Nat) :
    consumeLoop now need [] oldTime newTime =
      if (newTime + need) % 2 ^ 64 > now then { ret := false, cas := none }
      else { ret := true, cas := some (oldTime, (newTime + need) % 2 ^ 64) } := rfl

theorem consumeLoop_cons (now need seen : Nat) (fails : List Nat) (oldTime newTime : Nat) :
    consumeLoop now need (seen :: fails) oldTime newTime =
      if (newTime + need) % 2 ^ 64 > now then { ret := false, cas := none }
      else consumeLoop now need fails seen seen := rfl

theorem consumeLoop_false (now need : Nat) (fails : List Nat) (oldTime newTime : Nat)
    (h : (consumeLoop now need fails oldTime newTime).ret = false) :
    (consumeLoop now need fails oldTime newTime).cas = none := by
  induction fails generalizing oldTime newTime with
  | nil =>
    rw [consumeLoop_nil] at h ⊢
    by_cases hgt : (newTime + need) % 2 ^ 64 > now
    · rw [if_pos hgt]
    · rw [if_neg hgt] at h
      cases h
  | cons seen fails ih =>
    rw [consumeLoop_cons] at h ⊢
    by_cases hgt : (newTime + need) % 2 ^ 64 > now
    · rw [if_pos hgt]
    · rw [if_neg hgt] at h ⊢
      exact ih seen seen h

/-- C2: a call of consume that returns false, whatever compare-exchange failures
it went through, made no successful compare-exchange, and the bucket after the
call (virtualTime, timePerToken and timePerBurst) equals the bucket before. -/
theorem consume_false_unchanged (bk : TokenBucket) (now tokens : Nat) (fails : List Nat)
    (h : (bk.consumeTrace now tokens fails).ret = false) :
    (bk.consumeTrace now tokens fails).cas = none ∧
    bk.commit (bk.consumeTrace now tokens fails) = bk ∧
    (fails = [] → bk.consume now tokens = (false, bk)) := by
  have hcas : (bk.consumeTrace now tokens fails).cas = none :=
    consumeLoop_false _ _ _ _ _ h
  have hcommit : bk.commit (bk.consumeTrace now tokens fails) = bk := by
    simp [commit, hcas]
  refine ⟨hcas, hcommit, ?_⟩
  intro hnil
  subst hnil
  simp only [consume, h, hcommit]

/-- C2 (witness): rate 10, burst 5, virtualTime 1000000 at clock reading 1000000,
one token, no compare-exchange failure. -/
theorem consume_false_unchanged_witness :
    (consumeTrace ⟨1000000, 100000, 500000⟩ 1000000 1 []).ret = false ∧
    ((consumeTrace ⟨1000000, 100000, 500000⟩ 1000000 1 []).cas = none ∧
      commit ⟨1000000, 100000, 500000⟩
        (consumeTrace ⟨1000000, 100000, 500000⟩ 1000000 1 []) = ⟨1000000, 100000, 500000⟩ ∧
      (([] : List Nat) = [] →
        consume ⟨1000000, 100000, 500000⟩ 1000000 1 = (false, ⟨1000000, 100000, 500000⟩))) :=
  ⟨by decide, consume_false_unchanged ⟨1000000, 100000, 500000⟩ 1000000 1 [] (by decide)⟩

/-! ## C3 -/

theorem consumeLoop_true (now need : Nat) (fails : List Nat) (oldTime newTime : Nat)
    (h : (consumeLoop now need fails oldTime newTime).ret = true) :
    ∃ expected stored,
      (consumeLoop now need fails oldTime newTime).cas = some (expected, stored) ∧
      stored ≤ now := by
  induction fails generalizing oldTime newTime with
  | nil =>
    rw [consumeLoop_nil] at h ⊢
    by_cases hgt : (newTime + need) % 2 ^ 64 > now
    · rw [if_pos hgt] at h
      cases h
    · rw [if_neg hgt]
      exact ⟨_, _, rfl, by omega⟩
  | cons seen fails ih =>
    rw [consumeLoop_cons] at h ⊢
    by_cases hgt : (newTime + need) % 2 ^ 64 > now
    · rw [if_pos hgt] at h
      cases h
    · rw [if_neg hgt] at h ⊢
      exact ih seen seen h

/-- C3: a call of consume that returns true, after any number of failed
compare-exchange attempts, stored a virtualTime value that is at most the clock
reading now; that value is the virtualTime of the bucket after the call. -/
theorem consume_true_stored_le_now (bk : TokenBucket) (now tokens : Nat) (fails : List Nat)
    (h : (bk.consumeTrace now tokens fails).ret = true) :
    ∃ expected stored,
      (bk.consumeTrace now tokens fails).cas = some (expected, stored) ∧
      (bk.commit (bk.consumeTrace now tokens fails)).time_ = stored ∧
      stored ≤ now := by
  obtain ⟨e, s, hcas, hle⟩ := consumeLoop_true _ _ _ _ _ h
  have hcas' : (bk.consumeTrace now tokens fails).cas = some (e, s) := hcas
  exact ⟨e, s, hcas', by simp [commit, hcas'], hle⟩

/-- C3 (witness): rate 10, burst 5, a rested bucket at clock reading 1000000,
two tokens, with two failed compare-exchange attempts that reloaded 600000 and
then 700000. -/
theorem consume_true_stored_le_now_witness :
    (consumeTrace ⟨0, 100000, 500000⟩ 1000000 2 [600000, 700000]).ret = true ∧
    ∃ expected stored,
      (consumeTrace ⟨0, 100000, 500000⟩ 1000000 2 [600000, 700000]).cas
        = some (expected, stored) ∧
      (commit ⟨0, 100000, 500000⟩
        (consumeTrace ⟨0, 100000, 500000⟩ 1000000 2 [600000, 700000])).time_ = stored ∧
      stored ≤ 1000000 :=
  ⟨by decide,
    consume_true_stored_le_now ⟨0, 100000, 500000⟩ 1000000 2 [600000, 700000] (by decide)⟩

/-! ## C4 -/

theorem run_nil (bk : TokenBucket) : bk.run [] = ([], bk) := rfl

theorem run_cons (bk : TokenBucket) (now tokens : Nat) (calls : List (Nat × Nat)) :
    bk.run ((now, tokens) :: calls) =
      ((bk.consume now tokens).1 :: ((bk.consume now tokens).2.run calls).1,
        ((bk.consume now tokens).2.run calls).2) := rfl

theorem consume_time_ge (bk : TokenBucket) (now tokens : Nat) (h : bk.AddFits now tokens) :
    bk.time_ ≤ (bk.consume now tokens).2.time_ := by
  unfold AddFits at h
  rw [consume_eq, Nat.mod_eq_of_lt h]
  split
  · exact Nat.le_refl _
  · show bk.time_ ≤ max bk.time_ (bk.minTime now) + bk.timeNeeded tokens
    omega

theorem run_time_ge (bk : TokenBucket) (calls : List (Nat × Nat)) (h : bk.RunFits calls) :
    bk.time_ ≤ (bk.run calls).2.time_ := by
  induction calls generalizing bk with
  | nil => exact Nat.le_refl _
  | cons c calls ih =>
    obtain ⟨now, tokens⟩ := c
    obtain ⟨hfit, hrest⟩ := h
    rw [run_cons]
    exact Nat.le_trans (consume_time_ge bk now tokens hfit) (ih _ hrest)

/-- Every successful compare-exchange of a contended call replaces the expected
value by one at least as large, if no addition of the call wraps around. -/
theorem consumeLoop_cas_le (now need : Nat) (fails : List Nat) (oldTime newTime : Nat)
    (hold : oldTime ≤ newTime) (hfit : newTime + need < 2 ^ 64)
    (hfails : ∀ seen ∈ fails, seen + need < 2 ^ 64) (expected stored : Nat)
    (hcas : (consumeLoop now need fails oldTime newTime).cas = some (expected, stored)) :
    expected ≤ stored := by
  induction fails generalizing oldTime newTime with
  | nil =>
    rw [consumeLoop_nil, Nat.mod_eq_of_lt hfit] at hcas
    by_cases hgt : newTime + need > now
    · rw [if_pos hgt] at hcas
      cases hcas
    · rw [if_neg hgt] at hcas
      simp only [Option.some.injEq, Prod.mk.injEq] at hcas
      omega
  | cons seen fails ih =>
    rw [consumeLoop_cons] at hcas
    by_cases hgt : (newTime + need) % 2 ^ 64 > now
    · rw [if_pos hgt] at hcas
      cases hcas
    · rw [if_neg hgt] at hcas
      exact ih seen seen (Nat.le_refl _) (hfails seen (List.mem_cons_self _ _))
        (fun v hv => hfails v (List.mem_cons_of_mem _ hv)) hcas

/-- C4 (counterexample): rate 10, burst 5.  After consume(5) at clock reading
150000 the stored virtualTime is 150000; consume(4) at clock reading 160000
then returns true and leaves virtualTime 60000, which is smaller. -/
theorem virtualTime_decreases_counterexample :
    construct 10 5 = some ⟨0, 100000, 500000⟩ ∧
    run ⟨0, 100000, 500000⟩ [(150000, 5)] = ([true], ⟨150000, 100000, 500000⟩) ∧
    consume ⟨150000, 100000, 500000⟩ 160000 4 = (true, ⟨60000, 100000, 500000⟩) ∧
    ¬ ((TokenBucket.mk 150000 100000 500000).time_ ≤
        (consume ⟨150000, 100000, 500000⟩ 160000 4).2.time_) := by
  decide

/-- Over a sequence of uncontended calls in which no addition wraps around, the
stored time after a prefix is at most the stored time after the whole sequence. -/
theorem run_prefix_time_le (bk : TokenBucket) (before after : List (Nat × Nat))
    (h : bk.RunFits (before ++ after)) :
    (bk.run before).2.time_ ≤ (bk.run (before ++ after)).2.time_ := by
  induction before generalizing bk with
  | nil => exact run_time_ge bk after h
  | cons c before ih =>
    obtain ⟨now, tokens⟩ := c
    obtain ⟨_, hrest⟩ := h
    rw [List.cons_append, run_cons, run_cons]
    exact ih _ hrest

/-- One atomic step of a call never lowers `time_` when its addition does not
wrap around, and it keeps `newTime` at or above `oldTime`. -/
theorem threadStep_time_ge (now tokens : Nat) (spurious : Bool) (bk : TokenBucket) (pc : Pc)
    (hsane : pc.Sane) (hfit : pc.addFits (bk.timeNeeded tokens) = true) :
    bk.time_ ≤ (threadStep now tokens spurious bk pc).1.time_ ∧
    (threadStep now tokens spurious bk pc).2.Sane := by
  cases pc with
  | entry =>
    refine ⟨Nat.le_refl _, ?_⟩
    show bk.time_ ≤ (if bk.minTime now > bk.time_ then bk.minTime now else bk.time_)
    by_cases h : bk.minTime now > bk.time_
    · rw [if_pos h]; omega
    · rw [if_neg h]
  | attempt oldTime newTime =>
    have hfit' : newTime + bk.timeNeeded tokens < 2 ^ 64 := of_decide_eq_true hfit
    have hsane' : oldTime ≤ newTime := hsane
    have hstep : threadStep now tokens spurious bk (Pc.attempt oldTime newTime)
        = if (newTime + bk.timeNeeded tokens) % 2 ^ 64 > now then (bk, Pc.returned false)
          else if bk.time_ = oldTime ∧ spurious = false then
            ({ bk with time_ := (newTime + bk.timeNeeded tokens) % 2 ^ 64 }, Pc.returned true)
          else (bk, Pc.attempt bk.time_ bk.time_) := rfl
    rw [hstep, Nat.mod_eq_of_lt hfit']
    by_cases hgt : newTime + bk.timeNeeded tokens > now
    · rw [if_pos hgt]
      exact ⟨Nat.le_refl _, trivial⟩
    · rw [if_neg hgt]
      by_cases hcas : bk.time_ = oldTime ∧ spurious = false
      · rw [if_pos hcas]
        refine ⟨?_, trivial⟩
        show bk.time_ ≤ newTime + bk.timeNeeded tokens
        omega
      · rw [if_neg hcas]
        exact ⟨Nat.le_refl _, Nat.le_refl _⟩
  | returned result => exact ⟨Nat.le_refl _, trivial⟩

theorem shared_step_time_ge (s : Shared) (i : Nat) (spurious : Bool)
    (hsane : ∀ c ∈ s.callers, c.pc.Sane) (hfit : s.nextFits i = true) :
    s.bucket.time_ ≤ (s.step i spurious).bucket.time_ ∧
    ∀ c ∈ (s.step i spurious).callers, c.pc.Sane := by
  unfold Shared.nextFits at hfit
  unfold Shared.step
  cases hget : s.callers[i]? with
  | none => exact ⟨Nat.le_refl _, hsane⟩
  | some c =>
    rw [hget] at hfit
    have hstep := threadStep_time_ge c.now c.tokens spurious s.bucket c.pc
      (hsane c (List.getElem?_mem hget)) hfit
    refine ⟨hstep.1, ?_⟩
    intro d hd
    rcases List.mem_or_eq_of_mem_set hd with hmem | heq
    · exact hsane d hmem
    · rw [heq]
      exact hstep.2

theorem shared_exec_nil (s : Shared) : s.exec [] = s := rfl

theorem shared_exec_cons (s : Shared) (i : Nat) (spurious : Bool)
    (schedule : List (Nat × Bool)) :
    s.exec ((i, spurious) :: schedule) = (s.step i spurious).exec schedule := rfl

theorem shared_exec_time_ge (schedule : List (Nat × Bool)) (s : Shared)
    (hsane : ∀ c ∈ s.callers, c.pc.Sane) (hfit : s.ExecFits schedule) :
    s.bucket.time_ ≤ (s.exec schedule).bucket.time_ := by
  induction schedule generalizing s with
  | nil => exact Nat.le_refl _
  | cons e schedule ih =>
    obtain ⟨i, spurious⟩ := e
    obtain ⟨hnext, hrest⟩ := hfit
    have hstep := shared_step_time_ge s i spurious hsane hnext
    rw [shared_exec_cons]
    exact Nat.le_trans hstep.1 (ih _ hstep.2 hrest)

theorem shared_exec_prefix_time_le (done todo : List (Nat × Bool)) (s : Shared)
    (hsane : ∀ c ∈ s.callers, c.pc.Sane) (hfit : s.ExecFits (done ++ todo)) :
    (s.exec done).bucket.time_ ≤ (s.exec (done ++ todo)).bucket.time_ := by
  induction done generalizing s with
  | nil => exact shared_exec_time_ge todo s hsane hfit
  | cons e done ih =>
    obtain ⟨i, spurious⟩ := e
    obtain ⟨hnext, hrest⟩ := hfit
    have hstep := shared_step_time_ge s i spurious hsane hnext
    rw [List.cons_append, shared_exec_cons, shared_exec_cons]
    exact ih _ hstep.2 hrest

/-- A call with any list of compare-exchange failures: if neither its first
addition nor the addition of any retry wraps around, its successful
compare-exchange replaces the expected value by one at least as large. -/
theorem consumeTrace_cas_le (bk : TokenBucket) (now tokens : Nat) (fails : List Nat)
    (expected stored : Nat)
    (hfirst : bk.AddFits now tokens)
    (hretry : ∀ seen ∈ fails, seen + bk.timeNeeded tokens < 2 ^ 64)
    (hcas : (bk.consumeTrace now tokens fails).cas = some (expected, stored)) :
    expected ≤ stored := by
  unfold AddFits at hfirst
  have hmax : (if bk.minTime now > bk.time_ then bk.minTime now else bk.time_)
      = max bk.time_ (bk.minTime now) := by
    split <;> omega
  exact consumeLoop_cas_le now (bk.timeNeeded tokens) fails bk.time_
    (if bk.minTime now > bk.time_ then bk.minTime now else bk.time_)
    (by rw [hmax]; omega) (by rw [hmax]; exact hfirst) hretry expected stored hcas

/-- C4 (amended): when no addition newTime += timeNeeded wraps around 2^64,
virtualTime never decreases, for contended calls as for uncontended ones.
First part: over a sequence of uncontended calls run one after the other, the
virtualTime after any prefix is at most the virtualTime after the whole
sequence.  Second part: any number of calls, each with its own clock reading and
tokens, all not yet started, take their atomic steps in any interleaving and
with any compare-exchange failures; the virtualTime after any prefix of the
interleaving is at most the virtualTime after the whole of it, so each call,
whether it returns true or false, leaves virtualTime at least where it found it.
Third part: a single call with any list of values reloaded by failed
compare-exchanges stores a value at least as large as the one it replaces.
Each part alone is the theorem with the inputs of the other parts trivial (empty
lists; the default bucket with clock reading 0 and 0 tokens). -/
theorem virtualTime_nondecreasing (bk : TokenBucket) (before after : List (Nat × Nat))
    (callers : List Caller) (done todo : List (Nat × Bool))
    (tb : TokenBucket) (now tokens : Nat) (fails : List Nat) (expected stored : Nat)
    (hrun : bk.RunFits (before ++ after))
    (hentry : ∀ c ∈ callers, c.pc = Pc.entry)
    (hexec : Shared.ExecFits ⟨bk, callers⟩ (done ++ todo))
    (hfirst : tb.AddFits now tokens)
    (hretry : ∀ seen ∈ fails, seen + tb.timeNeeded tokens < 2 ^ 64)
    (hcas : (tb.consumeTrace now tokens fails).cas = some (expected, stored)) :
    (bk.run before).2.time_ ≤ (bk.run (before ++ after)).2.time_ ∧
    (Shared.exec ⟨bk, callers⟩ done).bucket.time_
      ≤ (Shared.exec ⟨bk, callers⟩ (done ++ todo)).bucket.time_ ∧
    expected ≤ stored := by
  refine ⟨run_prefix_time_le bk before after hrun,
    shared_exec_prefix_time_le done todo ⟨bk, callers⟩ ?_ hexec,
    consumeTrace_cas_le tb now tokens fails expected stored hfirst hretry hcas⟩
  intro c hc
  rw [hentry c hc]
  trivial

/-- C4 (witness): rate 10, burst 5, a bucket with virtualTime 0.  Uncontended: a
granted call, then a refused and a granted one.  Interleaved: three calls, of 5
tokens at clock 1000000 and of 1 token at clocks 1000000 and 1100000; the first
and the second load, the first is granted, the second fails its compare-exchange
against the new value and is refused on the retry, the third suffers a spurious
failure and is granted on the retry.  Single call: two tokens at clock 1000000
with failures that reloaded 600000 and 700000; it replaces 700000 by 900000. -/
theorem virtualTime_nondecreasing_witness :
    RunFits ⟨0, 100000, 500000⟩ ([(1000000, 5)] ++ [(1000000, 1), (1100000, 1)]) ∧
    (∀ c ∈ [Caller.mk 1000000 5 Pc.entry, Caller.mk 1000000 1 Pc.entry,
        Caller.mk 1100000 1 Pc.entry], c.pc = Pc.entry) ∧
    Shared.ExecFits ⟨⟨0, 100000, 500000⟩,
        [Caller.mk 1000000 5 Pc.entry, Caller.mk 1000000 1 Pc.entry,
          Caller.mk 1100000 1 Pc.entry]⟩
      ([(0, false), (1, false), (0, false)]
        ++ [(1, false), (1, false), (2, false), (2, true), (2, false)]) ∧
    Shared.exec ⟨⟨0, 100000, 500000⟩,
        [Caller.mk 1000000 5 Pc.entry, Caller.mk 1000000 1 Pc.entry,
          Caller.mk 1100000 1 Pc.entry]⟩
      ([(0, false), (1, false), (0, false)]
        ++ [(1, false), (1, false), (2, false), (2, true), (2, false)])
      = ⟨⟨1100000, 100000, 500000⟩,
          [Caller.mk 1000000 5 (Pc.returned true), Caller.mk 1000000 1 (Pc.returned false),
            Caller.mk 1100000 1 (Pc.returned true)]⟩ ∧
    AddFits ⟨0, 100000, 500000⟩ 1000000 2 ∧
    (∀ seen ∈ [600000, 700000],
      seen + timeNeeded ⟨0, 100000, 500000⟩ 2 < 2 ^ 64) ∧
    (consumeTrace ⟨0, 100000, 500000⟩ 1000000 2 [600000, 700000]).cas
      = some (700000, 900000) ∧
    ((run ⟨0, 100000, 500000⟩ [(1000000, 5)]).2.time_ ≤
        (run ⟨0, 100000, 500000⟩
          ([(1000000, 5)] ++ [(1000000, 1), (1100000, 1)])).2.time_ ∧
      (Shared.exec ⟨⟨0, 100000, 500000⟩,
          [Caller.mk 1000000 5 Pc.entry, Caller.mk 1000000 1 Pc.entry,
            Caller.mk 1100000 1 Pc.entry]⟩
        [(0, false), (1, false), (0, false)]).bucket.time_
        ≤ (Shared.exec ⟨⟨0, 100000, 500000⟩,
            [Caller.mk 1000000 5 Pc.entry, Caller.mk 1000000 1 Pc.entry,
              Caller.mk 1100000 1 Pc.entry]⟩
          ([(0, false), (1, false), (0, false)]
            ++ [(1, false), (1, false), (2, false), (2, true), (2, false)])).bucket.time_ ∧
      700000 ≤ 900000) :=
  ⟨by decide, by decide, by decide, by decide, by decide, by decide, by decide,
    virtualTime_nondecreasing ⟨0, 100000, 500000⟩ [(1000000, 5)]
      [(1000000, 1), (1100000, 1)]
      [Caller.mk 1000000 5 Pc.entry, Caller.mk 1000000 1 Pc.entry,
        Caller.mk 1100000 1 Pc.entry]
      [(0, false), (1, false), (0, false)]
      [(1, false), (1, false), (2, false), (2, true), (2, false)]
      ⟨0, 100000, 500000⟩ 1000000 2 [600000, 700000] 700000 900000
      (by decide) (by decide) (by decide) (by decide) (by decide) (by decide)⟩

/-! ## C6 -/

theorem construct_eq (rate burstSize : Nat) (hrate : 0 < rate) :
    construct rate burstSize =
      some ⟨0, 1000000 / rate, (burstSize * (1000000 / rate)) % 2 ^ 64⟩ := by
  unfold construct
  rw [if_neg (by omega)]

/-- On the bucket as constructed, `consume(burstSize)` is granted at every clock
reading and stores that reading. -/
theorem consume_fresh_eq (rate b now : Nat) (hnow : now < 2 ^ 64) :
    consume ⟨0, 1000000 / rate, (b * (1000000 / rate)) % 2 ^ 64⟩ now b =
      (true, ⟨now, 1000000 / rate, (b * (1000000 / rate)) % 2 ^ 64⟩) := by
  rw [consume_eq]
  simp only [minTime, timeNeeded]
  have hsum : (max 0 ((now + 2 ^ 64 - b * (1000000 / rate) % 2 ^ 64) % 2 ^ 64)
      + b * (1000000 / rate) % 2 ^ 64) % 2 ^ 64 = now := by
    omega
  rw [hsum, if_neg (by omega)]

/-- The first attempt on a fresh bucket: for every rate > 0, every burst capacity
b and every 64-bit clock reading now, the constructor yields a bucket with
virtualTime 0 on which the call `consume(b)` whose first compare-exchange
succeeds returns true and stores virtualTime now. -/
theorem consume_burst_on_fresh (rate b now : Nat)
    (hrate : 0 < rate) (hnow : now < 2 ^ 64) :
    ∃ bk, construct rate b = some bk ∧ bk.time_ = 0 ∧
      bk.consume now b = (true, { bk with time_ := now }) :=
  ⟨_, construct_eq rate b hrate, rfl, consume_fresh_eq rate b now hnow⟩

/-- The first attempt on a fresh bucket at rate 10, burst 5, clock reading 100. -/
theorem consume_burst_on_fresh_witness :
    0 < 10 ∧ 100 < 2 ^ 64 ∧
    ∃ bk, construct 10 5 = some bk ∧ bk.time_ = 0 ∧
      bk.consume 100 5 = (true, { bk with time_ := 100 }) :=
  ⟨by decide, by decide, consume_burst_on_fresh 10 5 100 (by decide) (by decide)⟩

/-- C6 (the code at a failing input): rate 10, burst 5, the freshly constructed
bucket, consume(5) at clock reading 100.  If the first compare-exchange succeeds
the call returns true and stores 100.  If the first compare_exchange_weak fails
spuriously, reloading the unchanged 0, the retry starts from 0 without the
clamp, its candidate 500000 exceeds 100, and the call returns false without
having written; the same in the interleaving model with a single thread. -/
theorem consume_burst_refused_after_spurious_failure :
    construct 10 5 = some ⟨0, 100000, 500000⟩ ∧
    consumeTrace ⟨0, 100000, 500000⟩ 100 5 [] = ⟨true, some (0, 100)⟩ ∧
    consumeTrace ⟨0, 100000, 500000⟩ 100 5 [0] = ⟨false, none⟩ ∧
    System.exec 100 5 ⟨⟨0, 100000, 500000⟩, [Pc.entry]⟩ [(0, false), (0, true), (0, false)]
      = ⟨⟨0, 100000, 500000⟩, [Pc.returned false]⟩ := by
  decide

/-! ## C7 -/

/-- C7 (counterexample): with rate 2000000 and burst 1 (timePerToken 0) at clock
reading 1000000, and with rate 10 and burst 1 at clock reading 100 (below
timePerBurst), consume(1) after the granted consume(1) returns true. -/
theorem consume_after_burst_counterexample :
    (construct 2000000 1 = some ⟨0, 0, 0⟩ ∧
      consume ⟨0, 0, 0⟩ 1000000 1 = (true, ⟨1000000, 0, 0⟩) ∧
      (consume ⟨1000000, 0, 0⟩ 1000000 1).1 = true) ∧
    (construct 10 1 = some ⟨0, 100000, 100000⟩ ∧
      consume ⟨0, 100000, 100000⟩ 100 1 = (true, ⟨100, 100000, 100000⟩) ∧
      (consume ⟨100, 100000, 100000⟩ 100 1).1 = true) := by
  decide

/-- C7 (amended): for 0 < rate <= 1000000, every burst capacity b (in particular
b >= 1) and a clock reading now with timePerBurst = b * (1000000 / rate) <= now and
now + 1000000 / rate < 2^64: on the freshly constructed bucket an uncontended
consume(b) at now returns true, and an uncontended consume(1) at the same now
then returns false and leaves the bucket as it is. -/
theorem consume_after_burst_fails (rate b now : Nat)
    (hrate : 0 < rate) (hmax : rate ≤ 1000000)
    (hburst : b * (1000000 / rate) ≤ now) (hnow : now + 1000000 / rate < 2 ^ 64) :
    ∃ bk, construct rate b = some bk ∧
      (bk.consume now b).1 = true ∧
      (bk.consume now b).2.consume now 1 = (false, (bk.consume now b).2) := by
  have hT : 0 < 1000000 / rate := Nat.div_pos hmax hrate
  have hfirst := consume_fresh_eq rate b now (by omega)
  refine ⟨_, construct_eq rate b hrate, by rw [hfirst], ?_⟩
  rw [hfirst, consume_eq]
  simp only [minTime, timeNeeded]
  have hsum : (max now ((now + 2 ^ 64 - b * (1000000 / rate) % 2 ^ 64) % 2 ^ 64)
      + 1 * (1000000 / rate) % 2 ^ 64) % 2 ^ 64 = now + 1000000 / rate := by
    omega
  rw [hsum, if_pos (by omega)]

/-- C7 (witness): rate 10, burst 5, clock reading 1000000. -/
theorem consume_after_burst_fails_witness :
    0 < 10 ∧ 10 ≤ 1000000 ∧ 5 * (1000000 / 10) ≤ 1000000 ∧
    1000000 + 1000000 / 10 < 2 ^ 64 ∧
    ∃ bk, construct 10 5 = some bk ∧
      (bk.consume 1000000 5).1 = true ∧
      (bk.consume 1000000 5).2.consume 1000000 1 = (false, (bk.consume 1000000 5).2) :=
  ⟨by decide, by decide, by decide, by decide,
    consume_after_burst_fails 10 5 1000000 (by decide) (by decide) (by decide) (by decide)⟩

/-! ## C8 -/

/-- C8 (counterexample): rate 10, burst 5.  With first clock reading 450000 the
second call, consume(1) at 450000, returns true; with first clock reading 0 the
third call, consume(1) at 100000, returns false. -/
theorem scenario_counterexample :
    construct 10 5 = some ⟨0, 100000, 500000⟩ ∧
    (run ⟨0, 100000, 500000⟩
      [(450000, 5), (450000, 1), (450000 + 100000, 1), (450000 + 100000, 1)]).1
        = [true, true, true, true] ∧
    (run ⟨0, 100000, 500000⟩
      [(0, 5), (0, 1), (0 + 100000, 1), (0 + 100000, 1)]).1
        = [true, false, false, false] := by
  decide

/-- C8 (amended): for a bucket freshly constructed with rate 10 and burst 5
(timePerToken 100000, timePerBurst 500000) and every first clock reading t0 with
500000 <= t0 and t0 + 200000 < 2^64: consume(5) at t0 returns true, consume(1)
at t0 returns false, consume(1) at t0 + 100000 returns true and a further
consume(1) at t0 + 100000 returns false; virtualTime ends at t0 + 100000. -/
theorem scenario_rate10_burst5 (t0 : Nat) (hlo : 500000 ≤ t0) (hhi : t0 + 200000 < 2 ^ 64) :
    ∃ bk, construct 10 5 = some bk ∧ bk = ⟨0, 100000, 500000⟩ ∧
      bk.run [(t0, 5), (t0, 1), (t0 + 100000, 1), (t0 + 100000, 1)]
        = ([true, false, true, false], ⟨t0 + 100000, 100000, 500000⟩) := by
  refine ⟨⟨0, 100000, 500000⟩, by decide, rfl, ?_⟩
  have h1 : consume ⟨0, 100000, 500000⟩ t0 5 = (true, ⟨t0, 100000, 500000⟩) := by
    rw [consume_eq]
    simp only [minTime, timeNeeded]
    have hsum : (max 0 ((t0 + 2 ^ 64 - 500000) % 2 ^ 64) + 5 * 100000 % 2 ^ 64) % 2 ^ 64
        = t0 := by omega
    rw [hsum, if_neg (by omega)]
  have h2 : consume ⟨t0, 100000, 500000⟩ t0 1 = (false, ⟨t0, 100000, 500000⟩) := by
    rw [consume_eq]
    simp only [minTime, timeNeeded]
    have hsum : (max t0 ((t0 + 2 ^ 64 - 500000) % 2 ^ 64) + 1 * 100000 % 2 ^ 64) % 2 ^ 64
        = t0 + 100000 := by omega
    rw [hsum, if_pos (by omega)]
  have h3 : consume ⟨t0, 100000, 500000⟩ (t0 + 100000) 1
      = (true, ⟨t0 + 100000, 100000, 500000⟩) := by
    rw [consume_eq]
    simp only [minTime, timeNeeded]
    have hsum : (max t0 ((t0 + 100000 + 2 ^ 64 - 500000) % 2 ^ 64)
        + 1 * 100000 % 2 ^ 64) % 2 ^ 64 = t0 + 100000 := by omega
    rw [hsum, if_neg (by omega)]
  have h4 : consume ⟨t0 + 100000, 100000, 500000⟩ (t0 + 100000) 1
      = (false, ⟨t0 + 100000, 100000, 500000⟩) := by
    rw [consume_eq]
    simp only [minTime, timeNeeded]
    have hsum : (max (t0 + 100000) ((t0 + 100000 + 2 ^ 64 - 500000) % 2 ^ 64)
        + 1 * 100000 % 2 ^ 64) % 2 ^ 64 = t0 + 200000 := by omega
    rw [hsum, if_pos (by omega)]
  simp only [run_cons, run_nil, h1, h2, h3, h4]

/-- C8 (witness): first clock reading 1000000. -/
theorem scenario_rate10_burst5_witness :
    500000 ≤ 1000000 ∧ 1000000 + 200000 < 2 ^ 64 ∧
    ∃ bk, construct 10 5 = some bk ∧ bk = ⟨0, 100000, 500000⟩ ∧
      bk.run [(1000000, 5), (1000000, 1), (1000000 + 100000, 1), (1000000 + 100000, 1)]
        = ([true, false, true, false], ⟨1000000 + 100000, 100000, 500000⟩) :=
  ⟨by decide, by decide, scenario_rate10_burst5 1000000 (by decide) (by decide)⟩

/-! ## C9 -/

/-- C9 (counterexample): with rate 2000000 and burst 1 (timePerToken 0),
consume(2) at clock reading 1000000 returns true; with rate 500000 and burst 1
(timePerToken 2), consume(2^63) at clock reading 1000000 returns true because
tokens * timePerToken wraps to 0. -/
theorem consume_above_burst_counterexample :
    (construct 2000000 1 = some ⟨0, 0, 0⟩ ∧ 1 < 2 ∧
      (consume ⟨0, 0, 0⟩ 1000000 2).1 = true) ∧
    (construct 500000 1 = some ⟨0, 2, 2⟩ ∧ 1 < 2 ^ 63 ∧ 2 ^ 63 < 2 ^ 64 ∧
      (consume ⟨0, 2, 2⟩ 1000000 (2 ^ 63)).1 = true) := by
  decide

/-- C9 (amended): for every bucket constructed with 0 < rate <= 1000000 and
burst capacity b, every stored virtualTime old <= now, and every tokens > b with
now + tokens * timePerToken < 2^64, an uncontended consume(tokens) returns false
and leaves the bucket unchanged. -/
theorem consume_above_burst_fails (rate b old now tokens : Nat) (bk : TokenBucket)
    (hrate : 0 < rate) (hmax : rate ≤ 1000000)
    (hbk : construct rate b = some bk)
    (hold : old ≤ now) (htok : b < tokens)
    (hfit : now + tokens * (1000000 / rate) < 2 ^ 64) :
    consume { bk with time_ := old } now tokens = (false, { bk with time_ := old }) := by
  have hT : 0 < 1000000 / rate := Nat.div_pos hmax hrate
  rw [construct_eq rate b hrate] at hbk
  cases hbk
  have hmul : b * (1000000 / rate) + 1000000 / rate ≤ tokens * (1000000 / rate) := by
    have := Nat.mul_le_mul_right (1000000 / rate) (Nat.succ_le_of_lt htok)
    rw [Nat.succ_mul] at this
    exact this
  rw [consume_eq]
  simp only [minTime, timeNeeded]
  rw [if_pos]
  by_cases hcase : b * (1000000 / rate) ≤ now
  · omega
  · omega

/-- C9 (witness): rate 10, burst 5, a rested bucket (virtualTime 0) at clock
reading 1000000000, 6 tokens requested. -/
theorem consume_above_burst_fails_witness :
    0 < 10 ∧ 10 ≤ 1000000 ∧ construct 10 5 = some ⟨0, 100000, 500000⟩ ∧
    0 ≤ 1000000000 ∧ 5 < 6 ∧ 1000000000 + 6 * (1000000 / 10) < 2 ^ 64 ∧
    consume { (TokenBucket.mk 0 100000 500000) with time_ := 0 } 1000000000 6
      = (false, { (TokenBucket.mk 0 100000 500000) with time_ := 0 }) :=
  ⟨by decide, by decide, by decide, by decide, by decide, by decide,
    consume_above_burst_fails 10 5 0 1000000000 6 ⟨0, 100000, 500000⟩
      (by decide) (by decide) (by decide) (by decide) (by decide) (by decide)⟩

/-! ## C5 -/

theorem granted_nil (bk : TokenBucket) : bk.granted [] = 0 := rfl

theorem granted_cons (bk : TokenBucket) (now tokens : Nat) (calls : List (Nat × Nat)) :
    bk.granted ((now, tokens) :: calls) =
      (if (bk.consume now tokens).1 then tokens else 0)
        + (bk.consume now tokens).2.granted calls := rfl

/-- An uncontended call in which nothing wraps around: the clock reading is at
least `timePerBurst_`, the stored time is at most the clock reading, and
`now + tokens * timePerToken_` fits in 64 bits. -/
theorem consume_of_fits (old T B now tokens : Nat)
    (hB : B ≤ now) (hold : old ≤ now) (hfit : now + tokens * T < 2 ^ 64) :
    consume ⟨old, T, B⟩ now tokens =
      if max old (now - B) + tokens * T > now then (false, ⟨old, T, B⟩)
      else (true, ⟨max old (now - B) + tokens * T, T, B⟩) := by
  rw [consume_eq]
  simp only [minTime, timeNeeded]
  have hsum : (max old ((now + 2 ^ 64 - B) % 2 ^ 64) + tokens * T % 2 ^ 64) % 2 ^ 64
      = max old (now - B) + tokens * T := by
    omega
  rw [hsum]

theorem lastReading_cons_cons (a c : Nat × Nat) (calls : List (Nat × Nat)) :
    lastReading (a :: c :: calls) = lastReading (c :: calls) := rfl

theorem le_lastReading (calls : List (Nat × Nat)) (h : NonDecreasing calls) :
    ∀ c ∈ calls, c.1 ≤ lastReading calls := by
  induction calls with
  | nil => intro c hc; cases hc
  | cons a calls ih =>
    cases calls with
    | nil =>
      intro c hc
      rw [List.mem_singleton] at hc
      subst hc
      exact Nat.le_refl _
    | cons d calls =>
      have hpair := List.pairwise_cons.mp h
      have ih' := ih hpair.2
      intro c hc
      rw [lastReading_cons_cons]
      rcases List.mem_cons.mp hc with hca | hcr
      · subst hca
        exact Nat.le_trans (hpair.1 d (List.mem_cons_self _ _)) (ih' d (List.mem_cons_self _ _))
      · exact ih' c hcr

theorem firstReading_le (calls : List (Nat × Nat)) (h : NonDecreasing calls) :
    ∀ c ∈ calls, firstReading calls ≤ c.1 := by
  cases calls with
  | nil => intro c hc; cases hc
  | cons a calls =>
    have hpair := List.pairwise_cons.mp h
    intro c hc
    rcases List.mem_cons.mp hc with hca | hcr
    · subst hca
      exact Nat.le_refl _
    · exact hpair.1 c hcr

/-- The accounting invariant of the virtual-time counter: the time cost of the
granted tokens, added to the clamped starting point, never passes the latest
clock reading. -/
theorem granted_mul_le (T B lo hi : Nat) (hB : B ≤ lo) (hlohi : lo ≤ hi)
    (calls : List (Nat × Nat)) (old : Nat)
    (hsorted : NonDecreasing calls) (holdhi : old ≤ hi)
    (hcalls : ∀ c ∈ calls, lo ≤ c.1 ∧ c.1 ≤ hi ∧ old ≤ c.1 ∧ c.1 + c.2 * T < 2 ^ 64) :
    granted ⟨old, T, B⟩ calls * T + max old (lo - B) ≤ hi := by
  induction calls generalizing old with
  | nil =>
    rw [granted_nil]
    omega
  | cons c calls ih =>
    obtain ⟨now, tokens⟩ := c
    have hpair := List.pairwise_cons.mp hsorted
    obtain ⟨hlo, hhi, holdnow, hfit⟩ := hcalls (now, tokens) (List.mem_cons_self _ _)
    simp only at hlo hhi holdnow hfit
    have hrest : ∀ c ∈ calls, lo ≤ c.1 ∧ c.1 ≤ hi ∧ c.1 + c.2 * T < 2 ^ 64 := by
      intro c hc
      obtain ⟨h1, h2, _, h4⟩ := hcalls c (List.mem_cons_of_mem _ hc)
      exact ⟨h1, h2, h4⟩
    rw [granted_cons, consume_of_fits old T B now tokens (by omega) holdnow hfit]
    by_cases hgt : max old (now - B) + tokens * T > now
    · rw [if_pos hgt]
      have := ih old hpair.2 holdhi (fun c hc =>
        ⟨(hrest c hc).1, (hrest c hc).2.1, (hcalls c (List.mem_cons_of_mem _ hc)).2.2.1,
          (hrest c hc).2.2⟩)
      simpa using this
    · rw [if_neg hgt]
      have hstep := ih (max old (now - B) + tokens * T) hpair.2 (by omega) (fun c hc =>
        ⟨(hrest c hc).1, (hrest c hc).2.1,
          Nat.le_trans (by omega) (hpair.1 c hc), (hrest c hc).2.2⟩)
      simp only [if_true]
      rw [Nat.add_mul]
      omega

/-- C5 (counterexample): rate 600000 (timePerToken = 1000000 / 600000 = 1) and
burst 10.  consume(10) at clock reading 1000000 and consume(10) at 1000010 both
return true: 20 tokens in a window of 10 microseconds, while
600000 * 10 / 1000000 + 10 + 1 = 17. -/
theorem rate_conformance_counterexample :
    construct 600000 10 = some ⟨0, 1, 10⟩ ∧
    NonDecreasing [(1000000, 10), (1000010, 10)] ∧
    run ⟨0, 1, 10⟩ [(1000000, 10), (1000010, 10)] = ([true, true], ⟨1000010, 1, 10⟩) ∧
    granted ⟨0, 1, 10⟩ [(1000000, 10), (1000010, 10)] = 20 ∧
    600000 * (1000010 - 1000000) = 6 * 1000000 ∧
    ¬ (granted ⟨0, 1, 10⟩ [(1000000, 10), (1000010, 10)]
        ≤ 600000 * (1000010 - 1000000) / 1000000 + 10 + 1) := by
  decide

/-- C5 (amended): for 0 < rate <= 1000000, every burst b, and every sequence of
uncontended consume calls on the freshly constructed bucket at non-decreasing
clock readings t_0 <= ... <= t_n with timePerBurst = b * timePerToken <= t_0 and
t_i + tokens_i * timePerToken < 2^64 for every call, where timePerToken =
1000000 / rate: the tokens granted cost at most (t_n - t_0) + timePerBurst in
time, so their number is at most (t_n - t_0) / timePerToken + b, which is at
most rate * (t_n - t_0) / 1000000 + b when rate divides 1000000. -/
theorem granted_le_window (rate b : Nat) (bk : TokenBucket) (calls : List (Nat × Nat))
    (hrate : 0 < rate) (hmax : rate ≤ 1000000)
    (hbk : construct rate b = some bk)
    (hsorted : NonDecreasing calls)
    (hburst : b * (1000000 / rate) ≤ firstReading calls)
    (hfit : ∀ c ∈ calls, c.1 + c.2 * (1000000 / rate) < 2 ^ 64) :
    bk.granted calls * (1000000 / rate)
      ≤ (lastReading calls - firstReading calls) + b * (1000000 / rate) ∧
    bk.granted calls ≤ (lastReading calls - firstReading calls) / (1000000 / rate) + b ∧
    (rate ∣ 1000000 →
      bk.granted calls ≤ rate * (lastReading calls - firstReading calls) / 1000000 + b) := by
  have hT : 0 < 1000000 / rate := Nat.div_pos hmax hrate
  rw [construct_eq rate b hrate] at hbk
  cases hbk
  have hcost : granted ⟨0, 1000000 / rate, b * (1000000 / rate) % 2 ^ 64⟩ calls
      * (1000000 / rate)
      ≤ (lastReading calls - firstReading calls) + b * (1000000 / rate) := by
    cases hcalls : calls with
    | nil => rw [granted_nil]; omega
    | cons c0 rest =>
      rw [← hcalls]
      have hc0 : c0 ∈ calls := by rw [hcalls]; exact List.mem_cons_self _ _
      have hfirst := firstReading_le calls hsorted
      have hlast := le_lastReading calls hsorted
      have h0 := hfit c0 hc0
      have hB : b * (1000000 / rate) % 2 ^ 64 = b * (1000000 / rate) := by
        have := hfirst c0 hc0
        omega
      rw [hB]
      have hinv := granted_mul_le (1000000 / rate) (b * (1000000 / rate))
        (firstReading calls) (lastReading calls) hburst
        (Nat.le_trans (hfirst c0 hc0) (hlast c0 hc0)) calls 0 hsorted (Nat.zero_le _)
        (fun c hc => ⟨hfirst c hc, hlast c hc, Nat.zero_le _, hfit c hc⟩)
      have := Nat.le_trans (hfirst c0 hc0) (hlast c0 hc0)
      omega
  refine ⟨hcost, ?_, ?_⟩
  · have hsub : (granted ⟨0, 1000000 / rate, b * (1000000 / rate) % 2 ^ 64⟩ calls - b)
        * (1000000 / rate) ≤ lastReading calls - firstReading calls := by
      rw [Nat.sub_mul]
      omega
    have := (Nat.le_div_iff_mul_le hT).mpr hsub
    omega
  · intro hdvd
    have hmul : 1000000 / rate * rate = 1000000 := Nat.div_mul_cancel hdvd
    have hsub : (granted ⟨0, 1000000 / rate, b * (1000000 / rate) % 2 ^ 64⟩ calls - b)
        * (1000000 / rate) ≤ lastReading calls - firstReading calls := by
      rw [Nat.sub_mul]
      omega
    have hscaled := Nat.mul_le_mul_right rate hsub
    rw [Nat.mul_assoc, hmul, Nat.mul_comm _ rate] at hscaled
    have := (Nat.le_div_iff_mul_le (by decide : 0 < 1000000)).mpr hscaled
    omega

/-- C5 (witness): rate 10, burst 5; five tokens at 1000000, one refused at
1000000, one granted at 1100000 and one refused at 1100000. -/
theorem granted_le_window_witness :
    0 < 10 ∧ 10 ≤ 1000000 ∧ construct 10 5 = some ⟨0, 100000, 500000⟩ ∧
    NonDecreasing [(1000000, 5), (1000000, 1), (1100000, 1), (1100000, 1)] ∧
    granted ⟨0, 100000, 500000⟩ [(1000000, 5), (1000000, 1), (1100000, 1), (1100000, 1)]
        * (1000000 / 10)
      ≤ (lastReading [(1000000, 5), (1000000, 1), (1100000, 1), (1100000, 1)]
          - firstReading [(1000000, 5), (1000000, 1), (1100000, 1), (1100000, 1)])
        + 5 * (1000000 / 10) ∧
    granted ⟨0, 100000, 500000⟩ [(1000000, 5), (1000000, 1), (1100000, 1), (1100000, 1)]
      ≤ (lastReading [(1000000, 5), (1000000, 1), (1100000, 1), (1100000, 1)]
          - firstReading [(1000000, 5), (1000000, 1), (1100000, 1), (1100000, 1)])
        / (1000000 / 10) + 5 ∧
    (10 ∣ 1000000 →
      granted ⟨0, 100000, 500000⟩ [(1000000, 5), (1000000, 1), (1100000, 1), (1100000, 1)]
        ≤ 10 * (lastReading [(1000000, 5), (1000000, 1), (1100000, 1), (1100000, 1)]
            - firstReading [(1000000, 5), (1000000, 1), (1100000, 1), (1100000, 1)])
          / 1000000 + 5) :=
  ⟨by decide, by decide, by decide, by decide,
    granted_le_window 10 5 ⟨0, 100000, 500000⟩
      [(1000000, 5), (1000000, 1), (1100000, 1), (1100000, 1)]
      (by decide) (by decide) (by decide) (by decide) (by decide) (by decide)⟩

/-! ## C10 -/

/-- C10 (the code at a failing interleaving): rate 10, burst 1, virtualTime 0,
clock reading 1000000, so exactly one token is available (two uncontended
consume(1) in a row return true, then false).  Two threads call consume(1);
thread 0 loads, its compare-exchange fails spuriously, its retry succeeds
without the clamp and stores 100000; thread 1 then loads, clamps to 900000 and
succeeds.  Both calls return true. -/
theorem concurrent_consume_over_admits :
    construct 10 1 = some ⟨0, 100000, 100000⟩ ∧
    (run ⟨0, 100000, 100000⟩ [(1000000, 1), (1000000, 1)]).1 = [true, false] ∧
    System.exec 1000000 1 ⟨⟨0, 100000, 100000⟩, [Pc.entry, Pc.entry]⟩
        [(0, false), (0, true), (0, false), (1, false), (1, false)]
      = ⟨⟨1000000, 100000, 100000⟩, [Pc.returned true, Pc.returned true]⟩ := by
  decide

/-! ### The same interleaving model without spurious failures -/

theorem threadOk_mono (t0 m c now j : Nat) (pc : Pc) (h : ThreadOk t0 m c now j pc) :
    ThreadOk t0 m c now (j + 1) pc := by
  cases pc with
  | entry => trivial
  | attempt oldTime newTime =>
    rcases h with h | ⟨i, h1, h2, h3⟩
    · exact Or.inl h
    · exact Or.inr ⟨i, h1, by omega, h3⟩
  | returned result =>
    cases result with
    | true => trivial
    | false =>
      simp only [ThreadOk] at h ⊢
      have : (j + 1 + 1) * c = (j + 1) * c + c := by rw [Nat.add_mul (j + 1) 1 c, Nat.one_mul]
      omega

theorem forall_mem_set {P : Pc → Prop} (l : List Pc) (i : Nat) (a : Pc)
    (hl : ∀ pc ∈ l, P pc) (ha : P a) : ∀ pc ∈ l.set i a, P pc := by
  intro pc hpc
  rcases List.mem_or_eq_of_mem_set hpc with h | h
  · exact hl pc h
  · rw [h]; exact ha

theorem count_set_of_ne (l : List Pc) (i : Nat) (x a : Pc) (hx : l[i]? = some x)
    (hxne : x ≠ Pc.returned true) (hane : a ≠ Pc.returned true) :
    (l.set i a).count (Pc.returned true) = l.count (Pc.returned true) := by
  obtain ⟨hi, hget⟩ := List.getElem?_eq_some.mp hx
  rw [List.count_set _ _ _ _ hi, hget]
  simp [hxne, hane]

theorem count_set_returned_true (l : List Pc) (i : Nat) (x : Pc) (hx : l[i]? = some x)
    (hxne : x ≠ Pc.returned true) :
    (l.set i (Pc.returned true)).count (Pc.returned true)
      = l.count (Pc.returned true) + 1 := by
  obtain ⟨hi, hget⟩ := List.getElem?_eq_some.mp hx
  rw [List.count_set _ _ _ _ hi, hget]
  simp [hxne]

theorem set_of_getElem? (l : List Pc) (i : Nat) (x : Pc) (hx : l[i]? = some x) :
    l.set i x = l := by
  induction l generalizing i with
  | nil => simp at hx
  | cons a l ih =>
    cases i with
    | zero =>
      simp only [List.getElem?_cons_zero, Option.some.injEq] at hx
      rw [List.set_cons_zero, hx]
    | succ i =>
      simp only [List.getElem?_cons_succ] at hx
      rw [List.set_cons_succ, ih i hx]

theorem mul_add_le_of_lt (k j c : Nat) (h : k < j) : k * c + c ≤ j * c := by
  have := Nat.mul_le_mul_right c (Nat.succ_le_of_lt h)
  rw [Nat.succ_mul] at this
  exact this

theorem threadStep_entry (now tokens v T B : Nat) (spurious : Bool)
    (hB : B ≤ now) (hnow : now < 2 ^ 64) :
    threadStep now tokens spurious ⟨v, T, B⟩ Pc.entry
      = (⟨v, T, B⟩, Pc.attempt v (max v (now - B))) := by
  simp only [threadStep, minTime]
  have hmin : (now + 2 ^ 64 - B) % 2 ^ 64 = now - B := by omega
  rw [hmin]
  have hmax : (if now - B > v then now - B else v) = max v (now - B) := by
    split <;> omega
  rw [hmax]

theorem threadStep_attempt (now tokens v T B oldTime newTime : Nat)
    (hfit : newTime + tokens * T < 2 ^ 64) :
    threadStep now tokens false ⟨v, T, B⟩ (Pc.attempt oldTime newTime)
      = if newTime + tokens * T > now then (⟨v, T, B⟩, Pc.returned false)
        else if v = oldTime then (⟨newTime + tokens * T, T, B⟩, Pc.returned true)
        else (⟨v, T, B⟩, Pc.attempt v v) := by
  simp only [threadStep, timeNeeded]
  have hsum : (newTime + tokens * T % 2 ^ 64) % 2 ^ 64 = newTime + tokens * T := by omega
  rw [hsum]
  simp

theorem step_ok (t0 T B now tokens j i : Nat) (s : System)
    (hB : B ≤ now) (hc : 0 < tokens * T) (hfit : now + tokens * T < 2 ^ 64)
    (h : SystemOk t0 T B now tokens j s) :
    ∃ j', SystemOk t0 T B now tokens j' (s.step now tokens i false) := by
  obtain ⟨⟨v, T', B'⟩, threads⟩ := s
  obtain ⟨hT, hB', htime, hle, hthreads, hcount⟩ := h
  simp only at hT hB' htime hle hthreads hcount
  subst hT hB'
  unfold System.step
  simp only
  cases hget : threads[i]? with
  | none => exact ⟨j, rfl, rfl, htime, hle, hthreads, hcount⟩
  | some pc =>
    have hok := hthreads pc (List.getElem?_mem hget)
    simp only
    cases pc with
    | entry =>
      rw [threadStep_entry now tokens v T' B' false hB (by omega)]
      refine ⟨j, rfl, rfl, htime, hle, forall_mem_set _ _ _ hthreads ?_,
        (count_set_of_ne _ _ _ _ hget (by simp) (by simp)).trans hcount⟩
      rcases htime with ⟨hj, hv⟩ | ⟨hj, hv⟩
      · exact Or.inl ⟨hv, by rw [hv]⟩
      · refine Or.inr ⟨j, hj, Nat.le_refl _, hv, ?_⟩
        omega
    | attempt oldTime newTime =>
      have hsucc : (j + 1) * (tokens * T') = j * (tokens * T') + tokens * T' := by
        rw [Nat.add_mul, Nat.one_mul]
      have hnew : newTime ≤ max t0 (now - B') + j * (tokens * T') := by
        rcases hok with ⟨_, hn⟩ | ⟨k, _, hk2, _, hn⟩
        · omega
        · have := Nat.mul_le_mul_right (tokens * T') hk2
          omega
      rw [threadStep_attempt now tokens v T' B' oldTime newTime (by omega)]
      by_cases hgt : newTime + tokens * T' > now
      · rw [if_pos hgt]
        refine ⟨j, rfl, rfl, htime, hle, forall_mem_set _ _ _ hthreads ?_,
          (count_set_of_ne _ _ _ _ hget (by simp) (by simp)).trans hcount⟩
        show now < max t0 (now - B') + (j + 1) * (tokens * T')
        omega
      · rw [if_neg hgt]
        by_cases hv : v = oldTime
        · rw [if_pos hv]
          have hstored : newTime + tokens * T'
              = max t0 (now - B') + (j + 1) * (tokens * T') := by
            rcases hok with ⟨ho, hn⟩ | ⟨k, hk1, hk2, ho, hn⟩
            · rcases htime with ⟨hj, _⟩ | ⟨hj, hvj⟩
              · subst hj
                omega
              · have := mul_add_le_of_lt 0 j (tokens * T') hj
                omega
            · rcases htime with ⟨hj, _⟩ | ⟨hj, hvj⟩
              · omega
              · rcases Nat.lt_or_eq_of_le hk2 with hlt | heq
                · have := mul_add_le_of_lt k j (tokens * T') hlt
                  omega
                · subst heq
                  omega
          refine ⟨j + 1, rfl, rfl, Or.inr ⟨by omega, hstored⟩, by omega,
            forall_mem_set _ _ _
              (fun pc hpc => threadOk_mono _ _ _ _ _ _ (hthreads pc hpc)) trivial, ?_⟩
          show (threads.set i (Pc.returned true)).count (Pc.returned true) = j + 1
          rw [count_set_returned_true _ _ _ hget (by simp), hcount]
        · rw [if_neg hv]
          refine ⟨j, rfl, rfl, htime, hle, forall_mem_set _ _ _ hthreads ?_,
            (count_set_of_ne _ _ _ _ hget (by simp) (by simp)).trans hcount⟩
          rcases htime with ⟨hj, hv0⟩ | ⟨hj, hvj⟩
          · rcases hok with ⟨ho, _⟩ | ⟨k, hk1, hk2, _, _⟩
            · exact absurd (hv0.trans ho.symm) hv
            · omega
          · exact Or.inr ⟨j, hj, Nat.le_refl _, hvj, hvj⟩
    | returned result =>
      have hstep : threadStep now tokens false ⟨v, T', B'⟩ (Pc.returned result)
          = (⟨v, T', B'⟩, Pc.returned result) := rfl
      rw [hstep]
      simp only
      rw [set_of_getElem? _ _ _ hget]
      exact ⟨j, rfl, rfl, htime, hle, hthreads, hcount⟩

theorem step_length (now tokens i : Nat) (spurious : Bool) (s : System) :
    (s.step now tokens i spurious).threads.length = s.threads.length := by
  unfold System.step
  cases s.threads[i]? with
  | none => rfl
  | some pc => simp

theorem exec_nil (now tokens : Nat) (s : System) : System.exec now tokens s [] = s := rfl

theorem exec_cons (now tokens i : Nat) (spurious : Bool) (s : System)
    (schedule : List (Nat × Bool)) :
    System.exec now tokens s ((i, spurious) :: schedule)
      = System.exec now tokens (s.step now tokens i spurious) schedule := rfl

theorem exec_length (now tokens : Nat) (schedule : List (Nat × Bool)) (s : System) :
    (System.exec now tokens s schedule).threads.length = s.threads.length := by
  induction schedule generalizing s with
  | nil => rfl
  | cons e schedule ih =>
    obtain ⟨i, spurious⟩ := e
    rw [exec_cons, ih, step_length]

theorem exec_ok (t0 T B now tokens : Nat)
    (hB : B ≤ now) (hc : 0 < tokens * T) (hfit : now + tokens * T < 2 ^ 64)
    (schedule : List (Nat × Bool)) (hns : ∀ e ∈ schedule, e.2 = false)
    (j : Nat) (s : System) (h : SystemOk t0 T B now tokens j s) :
    ∃ j', SystemOk t0 T B now tokens j' (System.exec now tokens s schedule) := by
  induction schedule generalizing j s with
  | nil => exact ⟨j, h⟩
  | cons e schedule ih =>
    obtain ⟨i, spurious⟩ := e
    have hsp : spurious = false := hns (i, spurious) (List.mem_cons_self _ _)
    subst hsp
    obtain ⟨j1, h1⟩ := step_ok t0 T B now tokens j i s hB hc hfit h
    rw [exec_cons]
    exact ih (fun e he => hns e (List.mem_cons_of_mem _ he)) j1 _ h1

/-- Without spurious compare-exchange failures, and when nothing wraps around,
every interleaving in which all `n` threads return grants exactly as many calls
as the bucket has capacity for (or all `n`, if the capacity is larger). -/
theorem exec_admitted_of_no_spurious (t0 T B now tokens n : Nat)
    (schedule : List (Nat × Bool))
    (hB : B ≤ now) (ht0 : t0 ≤ now) (hc : 0 < tokens * T) (hfit : now + tokens * T < 2 ^ 64)
    (hns : ∀ e ∈ schedule, e.2 = false)
    (hfin : (System.exec now tokens ⟨⟨t0, T, B⟩, List.replicate n Pc.entry⟩
      schedule).Finished) :
    (System.exec now tokens ⟨⟨t0, T, B⟩, List.replicate n Pc.entry⟩ schedule).admitted
      = min n ((now - max t0 (now - B)) / (tokens * T)) := by
  have hinit : SystemOk t0 T B now tokens 0 ⟨⟨t0, T, B⟩, List.replicate n Pc.entry⟩ := by
    refine ⟨rfl, rfl, Or.inl ⟨rfl, rfl⟩, by omega, ?_, ?_⟩
    · intro pc hpc
      rw [List.eq_of_mem_replicate hpc]
      trivial
    · simp [List.count_replicate]
  obtain ⟨j, _, _, _, hle, hthreads, hcount⟩ :=
    exec_ok t0 T B now tokens hB hc hfit schedule hns 0 _ hinit
  have hlen := exec_length now tokens schedule ⟨⟨t0, T, B⟩, List.replicate n Pc.entry⟩
  simp only [List.length_replicate] at hlen
  generalize System.exec now tokens ⟨⟨t0, T, B⟩, List.replicate n Pc.entry⟩ schedule = s
    at hfin hle hthreads hcount hlen
  unfold System.admitted
  rw [hcount]
  have hjn : j ≤ n := by
    rw [← hcount, ← hlen]
    exact List.count_le_length _ _
  have hjk : j ≤ (now - max t0 (now - B)) / (tokens * T) :=
    (Nat.le_div_iff_mul_le hc).mpr (by omega)
  rcases Nat.lt_or_eq_of_le hjn with hlt | heq
  · have hne : ¬ ∀ pc ∈ s.threads, Pc.returned true = pc := by
      intro hall
      have := List.count_eq_length.mpr hall
      omega
    simp only [not_forall] at hne
    obtain ⟨pc, hpc, hpcne⟩ := hne
    have hret := hfin pc hpc
    cases pc with
    | entry => cases hret
    | attempt oldTime newTime => cases hret
    | returned result =>
      cases result with
      | true => exact absurd rfl hpcne
      | false =>
        have hfalse : now < max t0 (now - B) + (j + 1) * (tokens * T) := hthreads _ hpc
        have hkj : (now - max t0 (now - B)) / (tokens * T) < j + 1 :=
          (Nat.div_lt_iff_lt_mul hc).mpr (by omega)
        omega
  · omega

/-- The same bucket and threads as in the failing interleaving, scheduled without
a spurious failure: one call is granted. -/
theorem exec_admitted_of_no_spurious_witness :
    (System.exec 1000000 1 ⟨⟨0, 100000, 100000⟩, List.replicate 2 Pc.entry⟩
      [(0, false), (1, false), (0, false), (1, false), (1, false)]).Finished ∧
    (System.exec 1000000 1 ⟨⟨0, 100000, 100000⟩, List.replicate 2 Pc.entry⟩
      [(0, false), (1, false), (0, false), (1, false), (1, false)]).admitted
      = min 2 ((1000000 - max 0 (1000000 - 100000)) / (1 * 100000)) :=
  ⟨by decide,
    exec_admitted_of_no_spurious 0 100000 100000 1000000 1 2
      [(0, false), (1, false), (0, false), (1, false), (1, false)]
      (by decide) (by decide) (by decide) (by decide) (by decide) (by decide)⟩

/-! ## C11 -/

/-- C11 (counterexample): a source bucket A with virtualTime 700000 (rate 10,
burst 5).  The copy-constructed bucket has virtualTime 0, and after copy
assignment into a bucket B with virtualTime 42 the target still has virtualTime
42: in neither case does virtualTime equal that of A. -/
theorem copy_virtualTime_counterexample :
    (copyConstruct ⟨700000, 100000, 500000⟩).time_ = 0 ∧
    (copyAssign ⟨42, 1, 3⟩ ⟨700000, 100000, 500000⟩).time_ = 42 ∧
    ¬ ((copyConstruct ⟨700000, 100000, 500000⟩).time_
        = (TokenBucket.mk 700000 100000 500000).time_) ∧
    ¬ ((copyAssign ⟨42, 1, 3⟩ ⟨700000, 100000, 500000⟩).time_
        = (TokenBucket.mk 700000 100000 500000).time_) := by
  decide

/-- C11 (amended): for every source bucket A and every existing bucket B, copy
construction from A yields a bucket with timePerToken and timePerBurst of A and
virtualTime 0, and copy assignment of A into B yields a bucket with timePerToken
and timePerBurst of A and the virtualTime B had before. -/
theorem copy_takes_configuration (A B : TokenBucket) :
    copyConstruct A = ⟨0, A.timePerToken_, A.timePerBurst_⟩ ∧
    copyAssign B A = ⟨B.time_, A.timePerToken_, A.timePerBurst_⟩ :=
  ⟨rfl, rfl⟩

/-! ## C12 -/

/-- C12 (counterexample): rate 500000 and burst 1 (timePerToken 2), virtualTime 0,
clock reading 1000000, tokens 2^63.  The product 2^64 exceeds the 64-bit range,
and the call returns true and moves virtualTime from 0 to 999998. -/
theorem consume_overflow_counterexample :
    construct 500000 1 = some ⟨0, 2, 2⟩ ∧
    2 ^ 63 < 2 ^ 64 ∧ 2 ^ 64 ≤ 2 ^ 63 * (TokenBucket.mk 0 2 2).timePerToken_ ∧
    consume ⟨0, 2, 2⟩ 1000000 (2 ^ 63) = (true, ⟨999998, 2, 2⟩) ∧
    ¬ ((consume ⟨0, 2, 2⟩ 1000000 (2 ^ 63)).2.time_ = (TokenBucket.mk 0 2 2).time_) := by
  decide

/-- C12 (amended): when tokens * timePerToken exceeds the 64-bit range the call
is not rejected.  It is charged timeNeeded = tokens * timePerToken mod 2^64,
which is at least 2^64 less than the product; with the wrapped candidate
W = (max(virtualTime, minTime) + timeNeeded) mod 2^64 it returns false and leaves
the bucket unchanged if W > now, and returns true and stores W otherwise. -/
theorem consume_overflow_wraps (bk : TokenBucket) (now tokens : Nat)
    (hover : 2 ^ 64 ≤ tokens * bk.timePerToken_) :
    bk.timeNeeded tokens = tokens * bk.timePerToken_ % 2 ^ 64 ∧
    bk.timeNeeded tokens + 2 ^ 64 ≤ tokens * bk.timePerToken_ ∧
    bk.consume now tokens =
      if (max bk.time_ (bk.minTime now) + bk.timeNeeded tokens) % 2 ^ 64 > now
      then (false, bk)
      else (true, { bk with
        time_ := (max bk.time_ (bk.minTime now) + bk.timeNeeded tokens) % 2 ^ 64 }) := by
  refine ⟨rfl, ?_, consume_eq bk now tokens⟩
  unfold timeNeeded
  omega

/-- C12 (witness): rate 500000, burst 1, virtualTime 0, clock reading 1000000,
tokens 2^63. -/
theorem consume_overflow_wraps_witness :
    2 ^ 64 ≤ 2 ^ 63 * (TokenBucket.mk 0 2 2).timePerToken_ ∧
    (timeNeeded ⟨0, 2, 2⟩ (2 ^ 63) = 2 ^ 63 * (TokenBucket.mk 0 2 2).timePerToken_ % 2 ^ 64 ∧
      timeNeeded ⟨0, 2, 2⟩ (2 ^ 63) + 2 ^ 64 ≤ 2 ^ 63 * (TokenBucket.mk 0 2 2).timePerToken_ ∧
      consume ⟨0, 2, 2⟩ 1000000 (2 ^ 63) =
        if (max (TokenBucket.mk 0 2 2).time_ (minTime ⟨0, 2, 2⟩ 1000000)
            + timeNeeded ⟨0, 2, 2⟩ (2 ^ 63)) % 2 ^ 64 > 1000000
        then (false, ⟨0, 2, 2⟩)
        else (true, { (TokenBucket.mk 0 2 2) with
          time_ := (max (TokenBucket.mk 0 2 2).time_ (minTime ⟨0, 2, 2⟩ 1000000)
            + timeNeeded ⟨0, 2, 2⟩ (2 ^ 63)) % 2 ^ 64 })) :=
  ⟨by decide, consume_overflow_wraps ⟨0, 2, 2⟩ 1000000 (2 ^ 63) (by decide)⟩

/-! ## C13 -/

/-- C13: two buckets constructed with the same rate and burst and driven by the
same sequence of calls (clock reading, tokens, and the values reloaded by the
failing compare-exchanges of each call) return the same list of booleans and end
in the same state; the same holds for a sequence of uncontended calls, and for
threads run against the two buckets under the same schedule. -/
theorem same_configuration_same_results (rate b : Nat) (bk1 bk2 : TokenBucket)
    (calls : List (Nat × Nat × List Nat)) (quiet : List (Nat × Nat))
    (now tokens : Nat) (threads : List Pc) (schedule : List (Nat × Bool))
    (h1 : construct rate b = some bk1) (h2 : construct rate b = some bk2) :
    bk1.runTrace calls = bk2.runTrace calls ∧ bk1.run quiet = bk2.run quiet ∧
    System.exec now tokens ⟨bk1, threads⟩ schedule
      = System.exec now tokens ⟨bk2, threads⟩ schedule := by
  rw [h1] at h2
  cases h2
  exact ⟨rfl, rfl, rfl⟩

/-- C13 (witness): rate 10, burst 5; a granted call, a refused call whose first
compare-exchange failed, and a granted call. -/
theorem same_configuration_same_results_witness :
    construct 10 5 = some ⟨0, 100000, 500000⟩ ∧
    runTrace ⟨0, 100000, 500000⟩
        [(1000000, 5, []), (1000000, 1, [1000000]), (1100000, 1, [])]
      = runTrace ⟨0, 100000, 500000⟩
        [(1000000, 5, []), (1000000, 1, [1000000]), (1100000, 1, [])] ∧
    run ⟨0, 100000, 500000⟩ [(1000000, 5), (1000000, 1)]
      = run ⟨0, 100000, 500000⟩ [(1000000, 5), (1000000, 1)] ∧
    System.exec 1000000 1 ⟨⟨0, 100000, 500000⟩, [Pc.entry, Pc.entry]⟩
        [(0, false), (1, false), (1, false), (0, false)]
      = System.exec 1000000 1 ⟨⟨0, 100000, 500000⟩, [Pc.entry, Pc.entry]⟩
        [(0, false), (1, false), (1, false), (0, false)] :=
  ⟨by decide,
    same_configuration_same_results 10 5 ⟨0, 100000, 500000⟩ ⟨0, 100000, 500000⟩
      [(1000000, 5, []), (1000000, 1, [1000000]), (1100000, 1, [])]
      [(1000000, 5), (1000000, 1)] 1000000 1 [Pc.entry, Pc.entry]
      [(0, false), (1, false), (1, false), (0, false)] (by decide) (by decide)⟩

/-! ## C14 -/

/-- The first attempt of a call is clamped: when nothing wraps around, the value
an uncontended call stores is at least `now - timePerBurst_ + tokens * timePerToken_`. -/
theorem consume_stored_ge_floor (old T B now tokens : Nat)
    (hB : B ≤ now) (hold : old ≤ now) (hfit : now + tokens * T < 2 ^ 64)
    (hret : (consume ⟨old, T, B⟩ now tokens).1 = true) :
    now - B + tokens * T ≤ (consume ⟨old, T, B⟩ now tokens).2.time_ := by
  rw [consume_of_fits old T B now tokens hB hold hfit] at hret ⊢
  by_cases hgt : max old (now - B) + tokens * T > now
  · rw [if_pos hgt] at hret
    cases hret
  · rw [if_neg hgt]
    show now - B + tokens * T ≤ max old (now - B) + tokens * T
    omega

/-- C14 (the code at a failing input): rate 10, burst 1, virtualTime 0, clock
reading 1000000, one token, so now - timePerBurst + tokens * timePerToken is
1000000.  The first attempt would store 1000000.  After one compare-exchange
failure that reloaded 0 (a spurious failure) the retry stores 100000, and after
one that reloaded 200000 (a value written by another caller) it stores 300000:
the retry starts from the reloaded value without the clamp. -/
theorem retry_skips_clamp :
    construct 10 1 = some ⟨0, 100000, 100000⟩ ∧
    1000000 - (TokenBucket.mk 0 100000 100000).timePerBurst_
      + 1 * (TokenBucket.mk 0 100000 100000).timePerToken_ = 1000000 ∧
    consumeTrace ⟨0, 100000, 100000⟩ 1000000 1 [] = ⟨true, some (0, 1000000)⟩ ∧
    consumeTrace ⟨0, 100000, 100000⟩ 1000000 1 [0] = ⟨true, some (0, 100000)⟩ ∧
    consumeTrace ⟨0, 100000, 100000⟩ 1000000 1 [200000]
      = ⟨true, some (200000, 300000)⟩ ∧
    ¬ (1000000 ≤ 100000) ∧ ¬ (1000000 ≤ 300000) := by
  decide

/-! ## C15 -/

/-- C15: for every bucket state, clock reading and tokens with
timePerBurst <= now, stored virtualTime <= now and
now + tokens * timePerToken < 2^64, the 64-bit uncontended consume returns the
same boolean and leaves the same virtualTime as the unbounded-integer reference
step, and it leaves timePerToken and timePerBurst as they are. -/
theorem consume_refines_refStep (bk : TokenBucket) (now tokens : Nat)
    (hburst : bk.timePerBurst_ ≤ now) (hold : bk.time_ ≤ now)
    (hfit : now + tokens * bk.timePerToken_ < 2 ^ 64) :
    ((bk.consume now tokens).1, ((bk.consume now tokens).2.time_ : Int))
      = bk.refStep now tokens ∧
    (bk.consume now tokens).2.timePerToken_ = bk.timePerToken_ ∧
    (bk.consume now tokens).2.timePerBurst_ = bk.timePerBurst_ := by
  refine ⟨?_, consume_timePerToken bk now tokens, consume_timePerBurst bk now tokens⟩
  obtain ⟨old, T, B⟩ := bk
  simp only at hburst hold hfit
  have hcand : refCandidate ⟨old, T, B⟩ now tokens
      = ((max old (now - B) + tokens * T : Nat) : Int) := by
    unfold refCandidate
    push_cast
    omega
  unfold refStep
  rw [hcand, consume_of_fits old T B now tokens hburst hold hfit]
  by_cases hgt : max old (now - B) + tokens * T > now
  · rw [if_pos hgt, if_neg (by exact_mod_cast (by omega : ¬ (max old (now - B) + tokens * T ≤ now)))]
  · rw [if_neg hgt, if_pos (by exact_mod_cast (by omega : max old (now - B) + tokens * T ≤ now))]

/-- C15 (witness): rate 10, burst 5, virtualTime 600000, clock reading 1000000,
two tokens. -/
theorem consume_refines_refStep_witness :
    (TokenBucket.mk 600000 100000 500000).timePerBurst_ ≤ 1000000 ∧
    (TokenBucket.mk 600000 100000 500000).time_ ≤ 1000000 ∧
    1000000 + 2 * (TokenBucket.mk 600000 100000 500000).timePerToken_ < 2 ^ 64 ∧
    (((consume ⟨600000, 100000, 500000⟩ 1000000 2).1,
        ((consume ⟨600000, 100000, 500000⟩ 1000000 2).2.time_ : Int))
      = refStep ⟨600000, 100000, 500000⟩ 1000000 2 ∧
    (consume ⟨600000, 100000, 500000⟩ 1000000 2).2.timePerToken_
      = (TokenBucket.mk 600000 100000 500000).timePerToken_ ∧
    (consume ⟨600000, 100000, 500000⟩ 1000000 2).2.timePerBurst_
      = (TokenBucket.mk 600000 100000 500000).timePerBurst_) :=
  ⟨by decide, by decide, by decide,
    consume_refines_refStep ⟨600000, 100000, 500000⟩ 1000000 2
      (by decide) (by decide) (by decide)⟩

/-! ## C16 -/

theorem grantedTime_nil (bk : TokenBucket) : bk.grantedTime [] = 0 := rfl

theorem grantedTime_cons (bk : TokenBucket) (now tokens : Nat) (calls : List (Nat × Nat)) :
    bk.grantedTime ((now, tokens) :: calls) =
      (if (bk.consume now tokens).1 then tokens * bk.timePerToken_ else 0)
        + (bk.consume now tokens).2.grantedTime calls := rfl

/-- An uncontended call in which neither the product nor the addition wraps
around, at a clock reading that is at least `timePerBurst_`. -/
theorem consume_of_addFits (old T B now tokens : Nat)
    (hB : B ≤ now) (hnow : now < 2 ^ 64) (hprod : tokens * T < 2 ^ 64)
    (hadd : AddFits ⟨old, T, B⟩ now tokens) :
    consume ⟨old, T, B⟩ now tokens =
      if max old (now - B) + tokens * T > now then (false, ⟨old, T, B⟩)
      else (true, ⟨max old (now - B) + tokens * T, T, B⟩) := by
  unfold AddFits at hadd
  simp only [minTime, timeNeeded] at hadd
  rw [consume_eq]
  simp only [minTime, timeNeeded]
  have hsum : (max old ((now + 2 ^ 64 - B) % 2 ^ 64) + tokens * T % 2 ^ 64) % 2 ^ 64
      = max old (now - B) + tokens * T := by
    omega
  rw [hsum]

/-- The accounting invariant in time units: the time cost of the granted calls,
added to the clamped starting point, never passes the latest clock reading. -/
theorem grantedTime_add_le (T B lo hi : Nat) (hB : B ≤ lo) (hlohi : lo ≤ hi)
    (calls : List (Nat × Nat)) (old : Nat) (holdhi : old ≤ hi)
    (hcalls : ∀ c ∈ calls, lo ≤ c.1 ∧ c.1 ≤ hi ∧ c.1 < 2 ^ 64 ∧ c.2 * T < 2 ^ 64)
    (hfits : RunFits ⟨old, T, B⟩ calls) :
    grantedTime ⟨old, T, B⟩ calls + max old (lo - B) ≤ hi := by
  induction calls generalizing old with
  | nil =>
    rw [grantedTime_nil]
    omega
  | cons c calls ih =>
    obtain ⟨now, tokens⟩ := c
    obtain ⟨hlo, hhi, hnow, hprod⟩ := hcalls (now, tokens) (List.mem_cons_self _ _)
    simp only at hlo hhi hnow hprod
    obtain ⟨hadd, hrest⟩ := hfits
    have hstep := consume_of_addFits old T B now tokens (by omega) hnow hprod hadd
    rw [grantedTime_cons, hstep]
    rw [hstep] at hrest
    by_cases hgt : max old (now - B) + tokens * T > now
    · rw [if_pos hgt] at hrest ⊢
      have := ih old holdhi (fun c hc => hcalls c (List.mem_cons_of_mem _ hc)) hrest
      simpa using this
    · rw [if_neg hgt] at hrest ⊢
      have := ih (max old (now - B) + tokens * T) (by omega)
        (fun c hc => hcalls c (List.mem_cons_of_mem _ hc)) hrest
      simp only [if_true]
      omega

theorem time_of_fresh (bk : TokenBucket)
    (hfresh : bk = TokenBucket.default ∨ ∃ rate b, construct rate b = some bk) :
    bk.time_ = 0 := by
  rcases hfresh with hd | ⟨rate, b, hc⟩
  · rw [hd]; rfl
  · unfold construct at hc
    by_cases hrate : rate = 0
    · rw [if_pos hrate] at hc
      cases hc
    · rw [if_neg hrate] at hc
      cases hc
      rfl

/-- C16: for every freshly constructed bucket (by either constructor) and every
sequence of uncontended consume calls at non-decreasing 64-bit clock readings
t_0 <= ... <= t_n, every t_i >= timePerBurst, in which no product
tokens * timePerToken and no addition newTime += timeNeeded exceeds the 64-bit
range, the sum of tokens * timePerToken over the calls that returned true is at
most (t_n - t_0) + timePerBurst. -/
theorem grantedTime_le_window (bk : TokenBucket) (calls : List (Nat × Nat))
    (hfresh : bk = TokenBucket.default ∨ ∃ rate b, construct rate b = some bk)
    (hsorted : NonDecreasing calls)
    (hburst : ∀ c ∈ calls, bk.timePerBurst_ ≤ c.1)
    (hclock : ∀ c ∈ calls, c.1 < 2 ^ 64)
    (hprod : ∀ c ∈ calls, c.2 * bk.timePerToken_ < 2 ^ 64)
    (hadd : bk.RunFits calls) :
    bk.grantedTime calls ≤ (lastReading calls - firstReading calls) + bk.timePerBurst_ := by
  have htime := time_of_fresh bk hfresh
  obtain ⟨old, T, B⟩ := bk
  simp only at htime hburst hprod ⊢
  subst htime
  cases hcalls : calls with
  | nil => rw [grantedTime_nil]; omega
  | cons c0 rest =>
    rw [← hcalls]
    have hc0 : c0 ∈ calls := by rw [hcalls]; exact List.mem_cons_self _ _
    have hfirst := firstReading_le calls hsorted
    have hlast := le_lastReading calls hsorted
    have hB : B ≤ firstReading calls := by
      have := hburst c0 hc0
      rw [hcalls]
      exact this
    have hinv := grantedTime_add_le T B (firstReading calls) (lastReading calls) hB
      (Nat.le_trans (hfirst c0 hc0) (hlast c0 hc0)) calls 0 (Nat.zero_le _)
      (fun c hc => ⟨hfirst c hc, hlast c hc, hclock c hc, hprod c hc⟩) hadd
    have := Nat.le_trans (hfirst c0 hc0) (hlast c0 hc0)
    omega

/-- C16 (witness): rate 10, burst 5; five tokens granted at 1000000, one refused
at 1000000, one granted at 1100000, one refused at 1100000. -/
theorem grantedTime_le_window_witness :
    ((TokenBucket.mk 0 100000 500000) = TokenBucket.default ∨
      ∃ rate b, construct rate b = some ⟨0, 100000, 500000⟩) ∧
    NonDecreasing [(1000000, 5), (1000000, 1), (1100000, 1), (1100000, 1)] ∧
    RunFits ⟨0, 100000, 500000⟩ [(1000000, 5), (1000000, 1), (1100000, 1), (1100000, 1)] ∧
    grantedTime ⟨0, 100000, 500000⟩
        [(1000000, 5), (1000000, 1), (1100000, 1), (1100000, 1)] = 600000 ∧
    grantedTime ⟨0, 100000, 500000⟩
        [(1000000, 5), (1000000, 1), (1100000, 1), (1100000, 1)]
      ≤ (lastReading [(1000000, 5), (1000000, 1), (1100000, 1), (1100000, 1)]
          - firstReading [(1000000, 5), (1000000, 1), (1100000, 1), (1100000, 1)])
        + (TokenBucket.mk 0 100000 500000).timePerBurst_ :=
  ⟨Or.inr ⟨10, 5, by decide⟩, by decide, by decide, by decide,
    grantedTime_le_window ⟨0, 100000, 500000⟩
      [(1000000, 5), (1000000, 1), (1100000, 1), (1100000, 1)]
      (Or.inr ⟨10, 5, by decide⟩) (by decide) (by decide) (by decide) (by decide)
      (by decide)⟩

/-! ## C17 -/

theorem construct_timePerToken_zero (rate b : Nat) (bk : TokenBucket)
    (hrate : 1000000 < rate) (hbk : construct rate b = some bk) :
    bk.timePerToken_ = 0 ∧ bk.timePerBurst_ = 0 := by
  rw [construct_eq rate b (by omega)] at hbk
  cases hbk
  have hdiv : 1000000 / rate = 0 := Nat.div_eq_of_lt hrate
  refine ⟨hdiv, ?_⟩
  show b * (1000000 / rate) % 2 ^ 64 = 0
  rw [hdiv, Nat.mul_zero]
  rfl

theorem timePerBurst_zero_of_fresh (bk : TokenBucket)
    (hfresh : bk = TokenBucket.default ∨ ∃ rate b, construct rate b = some bk)
    (hzero : bk.timePerToken_ = 0) : bk.timePerBurst_ = 0 := by
  rcases hfresh with hd | ⟨rate, b, hc⟩
  · rw [hd]; rfl
  · unfold construct at hc
    by_cases hrate : rate = 0
    · rw [if_pos hrate] at hc
      cases hc
    · rw [if_neg hrate] at hc
      cases hc
      simp only at hzero ⊢
      rw [hzero]
      omega

/-- C17: the default-constructed bucket and every bucket constructed with
rate > 1000000 have timePerToken 0; and whenever a bucket made by either
constructor has timePerToken 0, its timePerBurst is 0 as well and, whatever
virtualTime it has reached, an uncontended consume(tokens) at a 64-bit clock
reading now >= virtualTime returns true for every tokens and sets virtualTime to
now. -/
theorem unlimited_when_timePerToken_zero (bk : TokenBucket) (old now tokens : Nat)
    (hfresh : bk = TokenBucket.default ∨ ∃ rate b, construct rate b = some bk)
    (hzero : bk.timePerToken_ = 0) (hold : old ≤ now) (hnow : now < 2 ^ 64) :
    TokenBucket.default.timePerToken_ = 0 ∧
    (∀ rate b bk', 1000000 < rate → construct rate b = some bk' → bk'.timePerToken_ = 0) ∧
    bk.timePerBurst_ = 0 ∧
    consume { bk with time_ := old } now tokens = (true, { bk with time_ := now }) := by
  have hburst := timePerBurst_zero_of_fresh bk hfresh hzero
  refine ⟨rfl, fun rate b bk' hrate hbk => (construct_timePerToken_zero rate b bk' hrate hbk).1,
    hburst, ?_⟩
  obtain ⟨t, T, B⟩ := bk
  simp only at hzero hburst
  subst hzero hburst
  rw [consume_eq]
  simp only [minTime, timeNeeded]
  have hsum : (max old ((now + 2 ^ 64 - 0) % 2 ^ 64) + tokens * 0 % 2 ^ 64) % 2 ^ 64 = now := by
    omega
  rw [hsum, if_neg (by omega)]

/-- C17 (witness): rate 2000000, burst 7, virtualTime 300 reached earlier, clock
reading 1000, 2^40 tokens. -/
theorem unlimited_when_timePerToken_zero_witness :
    ((TokenBucket.mk 0 0 0) = TokenBucket.default ∨
      ∃ rate b, construct rate b = some ⟨0, 0, 0⟩) ∧
    (TokenBucket.mk 0 0 0).timePerToken_ = 0 ∧ 300 ≤ 1000 ∧ 1000 < 2 ^ 64 ∧
    (TokenBucket.default.timePerToken_ = 0 ∧
      (∀ rate b bk', 1000000 < rate → construct rate b = some bk' →
        bk'.timePerToken_ = 0) ∧
      (TokenBucket.mk 0 0 0).timePerBurst_ = 0 ∧
      consume { (TokenBucket.mk 0 0 0) with time_ := 300 } 1000 (2 ^ 40)
        = (true, { (TokenBucket.mk 0 0 0) with time_ := 1000 })) :=
  ⟨Or.inr ⟨2000000, 7, by decide⟩, by decide, by decide, by decide,
    unlimited_when_timePerToken_zero ⟨0, 0, 0⟩ 300 1000 (2 ^ 40)
      (Or.inr ⟨2000000, 7, by decide⟩) (by decide) (by decide) (by decide)⟩

end TokenBucket
